import Mathlib

/-!
Verification of the mesh-exporter core of the molrender3d repository:
the OBJ/MTL writer, the GLB writer, the LZ4 block compressor, the USD
integer coder, the USDZ (ZIP) container writer, the little-endian
primitive writers, and the USD Crate scene-tree serializer.

All definitions are shallow embeddings of the TypeScript source
(`src/usdz.ts` / `src/3d-exporter.ts`).  JavaScript numbers that are used
as integers are modelled as `Int`/`Nat` with explicit wrapping (`% 2^32`)
exactly where `DataView`/typed-array semantics wrap; byte buffers are
`List Nat` of byte values; IEEE-754 payloads that the claims never
inspect numerically are carried as their bit patterns.
-/

namespace Molrender

/-- Unsigned 32-bit wrap: JavaScript `ToUint32` (value taken mod 2^32). -/
def toUint32 (n : Int) : Nat := (n % 4294967296).toNat

/-- Signed 32-bit reinterpretation of an integer (two's complement). -/
def asInt32 (n : Int) : Int :=
  let m := n % 4294967296
  if m < 2147483648 then m else m - 4294967296

/-- Little-endian byte encoding of `n % 256^width` on `width` bytes. -/
def natLE : Nat → Nat → List Nat
  | 0, _ => []
  | w + 1, n => n % 256 :: natLE w (n / 256)

theorem natLE_length (w n : Nat) : (natLE w n).length = w := by
  induction w generalizing n with
  | zero => rfl
  | succ w ih => simp [natLE, ih]

/-- Overwrite `bs.length` bytes of `buf` starting at offset `off`
(model of `DataView.set*` into a typed array). -/
def setBytesAt (buf : List Nat) (off : Nat) (bs : List Nat) : List Nat :=
  buf.take off ++ bs ++ buf.drop (off + bs.length)

/--
Model of `writeInt(file, value, size, signed)` from `usdz.ts`: the byte
block appended to the sink.  The buffer starts zeroed; `size = 8, signed`
writes the low 32 bits of `value` at byte offset 0 and then — this is the
source's literal behaviour — writes the 32-bit value `-1` at byte offset
**1** (not 4) when `value < 0`.  `size = 6` writes low u32 then
`Math.floor(value / 2^32) & 0xFFFF` (JS `Math.floor` = floor division).
-/
def writeIntBytes (value : Int) (size : Nat) (signed : Bool) : List Nat :=
  let bytes := List.replicate size 0
  if size = 4 then
    -- setInt32 and setUint32 emit the same four bytes (mod 2^32)
    setBytesAt bytes 0 (natLE 4 (toUint32 value))
  else if size = 8 then
    if signed then
      let bytes := setBytesAt bytes 0 (natLE 4 (toUint32 value))
      if value < 0 then setBytesAt bytes 1 (natLE 4 (toUint32 (-1))) else bytes
    else
      setBytesAt bytes 0 (natLE 4 (toUint32 value))
  else if size = 1 then
    setBytesAt bytes 0 [toUint32 value % 256]
  else if size = 6 then
    setBytesAt bytes 0
      (natLE 4 (toUint32 value) ++ natLE 2 ((value.fdiv 4294967296 % 65536).toNat))
  else
    bytes

/-- The 8-byte little-endian two's-complement encoding of `v`
(what correct sign extension would produce). -/
def int64LE (v : Int) : List Nat := natLE 8 (v % 18446744073709551616).toNat

/-- Read `w` bytes little-endian starting at `off` (missing bytes read 0). -/
def readNatLE (buf : List Nat) (off : Nat) : Nat → Nat
  | 0 => 0
  | w + 1 => buf.getD off 0 + 256 * readNatLE buf (off + 1) w

/-! ## USDZ (ZIP, STORED) container — `getUsdzFromUsdc` -/

/-- The byte values of the single archive entry name `'tmp.usdc'`. -/
def usdzName : List Nat := [0x74, 0x6d, 0x70, 0x2e, 0x75, 0x73, 0x64, 0x63]

/-- The USDZ extra-field padding size: `64 − ((34 + nameLen) % 64)`. -/
def usdzExtraSize : Nat := 64 - ((34 + usdzName.length) % 64)

/--
The local-header block `pre` of `getUsdzFromUsdc`, as the source's
`DataView` writes at the running offsets of its pointer `p`; ranges the
source only skips (`p += k`) stay as the allocation's zero bytes and
appear here as `List.replicate k 0`.  (`pre` is allocated with
`34 + nameLen + extraSize` bytes; the writes end at offset 42, leaving
the final `extraSize` bytes zero.)
-/
def usdzPre (contentsSize : Nat) : List Nat :=
  [0x50, 0x4b, 0x03, 0x04]                 -- 0: local entry signature
    ++ natLE 2 20                          -- 4: version for extract
    ++ List.replicate 2 0                  -- 6: bits
    ++ List.replicate 2 0                  -- 8: compression method
    ++ List.replicate 4 0                  -- 10: mod time/date
    ++ List.replicate 4 0                  -- 14: crc hash
    ++ natLE 4 contentsSize                -- 18: size uncompressed
    ++ natLE 4 contentsSize                -- 22: size compressed
    ++ natLE 2 usdzName.length             -- 26: filename length
    ++ natLE 2 (usdzExtraSize + 4)         -- 28: recorded extra length
    ++ usdzName                            -- 30: filename
    ++ natLE 2 1                           -- 38: extra header id
    ++ natLE 2 usdzExtraSize               -- 40: extra header size
    ++ List.replicate usdzExtraSize 0      -- 42: padding to the payload

/-- The central-directory-plus-EOCD block `post` of `getUsdzFromUsdc`
(same write-pointer layout; `cdOffset = pre.length + contentsSize`). -/
def usdzPost (contentsSize : Nat) : List Nat :=
  [0x50, 0x4B, 0x01, 0x02]                 -- 0: central dir signature
    ++ natLE 2 62                          -- 4: version made by
    ++ natLE 2 20                          -- 6: version for extract
    ++ List.replicate 2 0                  -- 8: bits
    ++ List.replicate 2 0                  -- 10: compression method
    ++ List.replicate 4 0                  -- 12: time/date
    ++ List.replicate 4 0                  -- 16: crc hash
    ++ natLE 4 contentsSize                -- 20: size compressed
    ++ natLE 4 contentsSize                -- 24: size uncompressed
    ++ natLE 2 usdzName.length             -- 28: filename length
    ++ List.replicate 2 0                  -- 30: extra field length
    ++ List.replicate 2 0                  -- 32: comment length
    ++ List.replicate 2 0                  -- 34: disk number start
    ++ List.replicate 2 0                  -- 36: internal attrs
    ++ List.replicate 4 0                  -- 38: external attrs
    ++ List.replicate 4 0                  -- 42: local header offset
    ++ usdzName                            -- 46: filename again
    ++ [0x50, 0x4B, 0x05, 0x06]            -- 54: EOCD signature
    ++ List.replicate 2 0                  -- 58: disk number
    ++ List.replicate 2 0                  -- 60: central dir disk
    ++ natLE 2 1                           -- 62: entries on disk
    ++ natLE 2 1                           -- 64: entries total
    ++ natLE 4 (46 + usdzName.length)      -- 66: central dir length
    ++ natLE 4 (34 + usdzName.length + usdzExtraSize + contentsSize)
                                           -- 70: central dir offset
    ++ List.replicate 2 0                  -- 74: comment length

/--
Model of `getUsdzFromUsdc`.  `contents` is the concatenation of the byte
sink's buffers (the Crate file); the archive is `pre ++ contents ++ post`.
-/
def getUsdzFromUsdc (contents : List Nat) : List Nat :=
  usdzPre contents.length ++ contents ++ usdzPost contents.length

/-! ## OBJ/MTL exporter — `exportObj`

Mesh positions and normals are JS doubles in the source; the claims
exercise only integer-valued coordinates, on which JavaScript's number
to-string coincides with `Int` printing, so coordinates are modelled as
`Int`.  Face entries are the u32 vertex indices. -/

structure ObjMesh where
  positions : List (Int × Int × Int)
  normals : List (Int × Int × Int)
  faces : List Nat

/-- `Color.toRgbNormalized` (molstar): extract the 8-bit channels of a
24-bit color and divide by 255 (exact, as rationals). -/
def toRgbNormalized (c : Nat) : ℚ × ℚ × ℚ :=
  (mkRat ((c >>> 16) &&& 255 : Nat) 255,
   mkRat ((c >>> 8) &&& 255 : Nat) 255,
   mkRat ((c &&& 255 : Nat)) 255)

/-- JavaScript number-to-string, on the sub-domain exercised by the
claims: every printed value is integral, where JS prints the plain
decimal integer.  (Non-integral doubles use shortest-round-trip decimal
printing, outside this embedding; no claim input reaches that branch.) -/
def jsRatToString (q : ℚ) : String :=
  if q.den = 1 then toString q.num else toString q.num ++ "/" ++ toString q.den

/-- One `f`-line of the OBJ output.  The source reads `faces[i+j]` for
`j = 0,1,2`; when the faces array length is not a multiple of 3 the
out-of-bounds reads are `undefined` and `pointOffset + undefined` prints
as `NaN`, which the trailing cases reproduce. -/
def objFaceLines (pointOffset : Nat) : List Nat → List String
  | a :: b :: c :: rest =>
    ("f " ++ toString (pointOffset + a) ++ "//" ++ toString (pointOffset + a)
        ++ " " ++ toString (pointOffset + b) ++ "//" ++ toString (pointOffset + b)
        ++ " " ++ toString (pointOffset + c) ++ "//" ++ toString (pointOffset + c))
      :: objFaceLines pointOffset rest
  | [a, b] =>
    ["f " ++ toString (pointOffset + a) ++ "//" ++ toString (pointOffset + a)
        ++ " " ++ toString (pointOffset + b) ++ "//" ++ toString (pointOffset + b)
        ++ " NaN//NaN"]
  | [a] =>
    ["f " ++ toString (pointOffset + a) ++ "//" ++ toString (pointOffset + a)
        ++ " NaN//NaN NaN//NaN"]
  | [] => []

/-- The OBJ lines contributed by one mesh (group header, material use,
vertex, normal and face lines). -/
def objMeshLines (refId : Nat) (pointOffset : Nat) (mesh : ObjMesh) : List String :=
  ("g m" ++ toString refId) :: ("usemtl k" ++ toString refId) ::
    (mesh.positions.map fun p =>
      "v " ++ toString p.1 ++ " " ++ toString p.2.1 ++ " " ++ toString p.2.2)
    ++ (mesh.normals.map fun n =>
      "vn " ++ toString n.1 ++ " " ++ toString n.2.1 ++ " " ++ toString n.2.2)
    ++ objFaceLines pointOffset mesh.faces

/-- The MTL block pushed for one color (a single string containing
embedded newlines, exactly as the source concatenates it). -/
def mtlBlock (refId : Nat) (color : Nat) : String :=
  let rgb := toRgbNormalized color
  "newmtl k" ++ toString refId ++ "\n" ++
    "Ns 163\n" ++
    "Ni 0.001\n" ++
    "illum 2\n" ++
    "Ka 0.20 0.20 0.20\n" ++
    "Kd " ++ jsRatToString rgb.1 ++ " " ++ jsRatToString rgb.2.1 ++ " "
      ++ jsRatToString rgb.2.2 ++ "\n" ++
    "Ks 0.25 0.25 0.25"

/-- The `forEach` body of `exportObj`, folded over the insertion-ordered
color→mesh map, threading `refId` and the running 1-based `pointOffset`. -/
def exportObjGo (refId : Nat) (pointOffset : Nat) :
    List (Nat × ObjMesh) → List String × List String
  | [] => ([], [])
  | (color, mesh) :: rest =>
    let (objs, mtls) := exportObjGo (refId + 1) (pointOffset + mesh.positions.length) rest
    (objMeshLines refId pointOffset mesh ++ objs, mtlBlock refId color :: mtls)

/-- Model of `exportObj`: the `.obj` and `.mtl` texts.  The source has no
failure path; the `Except`-wrapped variant below makes that observable. -/
def exportObj (meshByColor : List (Nat × ObjMesh)) (outName : String) : String × String :=
  let (objs, mtls) := exportObjGo 0 1 meshByColor
  (String.intercalate "\n" (("mtllib " ++ outName ++ ".mtl") :: objs),
   String.intercalate "\n" mtls)

/-- `exportObj` viewed through the throw/return channel of the source
function: it contains no `throw`, so every input returns `ok`. -/
def exportObjE (meshByColor : List (Nat × ObjMesh)) (outName : String) :
    Except String (String × String) :=
  .ok (exportObj meshByColor outName)

/-! ## GLB exporter — `exportGlb`

Vertex coordinates enter the GLB binary chunk as raw IEEE-754 f32 words;
the model carries them as 32-bit patterns, copied verbatim like the
source's `Float32Array` buffers.  The JSON chunk is the serialized
manifest; serializing it involves JS double-to-shortest-decimal
printing, so the manifest bytes are a parameter of the model — every
claim proved about the GLB envelope holds for all byte sequences in that
position. -/

structure GlbMesh where
  positions : List (Nat × Nat × Nat)  -- f32 bit patterns
  normals : List (Nat × Nat × Nat)
  faces : List Nat

/-- `new Uint32Array(faces).buffer`: 4 bytes little-endian per index. -/
def facesBytes (faces : List Nat) : List Nat := faces.flatMap (natLE 4)

/-- `flattenVec3s(vs).buffer`: 12 bytes per vertex. -/
def vec3Bytes (vs : List (Nat × Nat × Nat)) : List Nat :=
  vs.flatMap fun v => natLE 4 v.1 ++ natLE 4 v.2.1 ++ natLE 4 v.2.2

/-- The concatenated per-mesh buffers (face, position, normal per color). -/
def glbBinaryBuffer (meshes : List GlbMesh) : List Nat :=
  meshes.flatMap fun m =>
    facesBytes m.faces ++ vec3Bytes m.positions ++ vec3Bytes m.normals

/-- The running `byteOffset` accumulated by the `forEach` body (the sum of
the three per-mesh buffer byte lengths). -/
def glbByteOffset (meshes : List GlbMesh) : Nat :=
  meshes.foldl
    (fun acc m => acc + 4 * m.faces.length + 12 * m.positions.length
      + 12 * m.normals.length) 0

/-- The chunk padding the source computes: `4 - (n % 4)` when `n` is not
4-byte aligned, else no padding. -/
def pad4 (n : Nat) : Nat := if n % 4 ≠ 0 then 4 - n % 4 else 0

/-- Model of `createChunk`: returns the chunk bytes (length word, type
word, content, padding) and the total chunk byte count `byteLength + 8`. -/
def createChunk (chunkType : Nat) (buf : List Nat) (byteLength : Nat) (padChar : Nat) :
    List Nat × Nat :=
  let pad := pad4 byteLength
  let byteLength2 := byteLength + pad
  (natLE 4 byteLength2 ++ natLE 4 chunkType ++ buf ++ List.replicate pad padChar,
   byteLength2 + 8)

/-- Model of `exportGlb` with the serialized JSON manifest abstracted as
`jsonBytes` (see the section comment). -/
def exportGlb (meshes : List GlbMesh) (jsonBytes : List Nat) : List Nat :=
  let binaryBuffer := glbBinaryBuffer meshes
  let binaryBufferLength := glbByteOffset meshes
  let (jsonChunk, jsonChunkLength) :=
    createChunk 0x4E4F534A jsonBytes jsonBytes.length 0x20
  let (binaryChunk, binaryChunkLength) :=
    createChunk 0x004E4942 binaryBuffer binaryBufferLength 0x00
  let glbBufferLength := 12 + jsonChunkLength + binaryChunkLength
  natLE 4 0x46546C67 ++ natLE 4 2 ++ natLE 4 glbBufferLength
    ++ jsonChunk ++ binaryChunk

/-! ## USD integer coding — `usdInt32Compress`

The source writes into one scratch buffer `data`: bytes `[0,4)` hold the
common value, bytes `[4, 4+⌈2n/8⌉)` hold the 2-bit code table (OR-writes
at byte `⌊(v+16)/4⌋ = 4 + ⌊v/4⌋`), and the payload pointer `p` starts at
`4+⌈2n/8⌉` and only moves forward; the function returns `data[0,p)`.
The two write regions are disjoint, so the model builds the three parts
separately and concatenates them. -/

/-- Signed reinterpretation of a byte (`DataView.getInt8`). -/
def asInt8 (b : Nat) : Int :=
  if b % 256 < 128 then (b % 256 : Nat) else (b % 256 : Int) - 256

/-- Signed reinterpretation of a 16-bit word (`DataView.getInt16`). -/
def asInt16 (n : Nat) : Int :=
  if n % 65536 < 32768 then (n % 65536 : Nat) else (n % 65536 : Int) - 65536

/-- The running deltas `d[i] = v[i] − v[i−1]` with `v[−1] = 0`. -/
def usdDeltas (preValue : Int) : List Int → List Int
  | [] => []
  | v :: rest => (v - preValue) :: usdDeltas v rest

/-- One step of the frequency tally (`Map.set` keeps first-insertion
order, so the association list preserves first-occurrence order). -/
def tallyAdd (acc : List (Int × Nat)) (v : Int) : List (Int × Nat) :=
  if acc.any (fun p => p.1 == v) then
    acc.map fun p => if p.1 == v then (p.1, p.2 + 1) else p
  else
    acc ++ [(v, 1)]

/-- Delta frequency tally in first-occurrence order. -/
def usdTally (deltas : List Int) : List (Int × Nat) := deltas.foldl tallyAdd []

/-- `counts.forEach` selection of the common value: strictly larger count
wins; on a count tie the numerically larger value wins. -/
def usdCommon (tallies : List (Int × Nat)) : Int :=
  (tallies.foldl
    (fun cvcc vc =>
      if vc.2 > cvcc.2 then (vc.1, vc.2)
      else if vc.2 = cvcc.2 ∧ vc.1 > cvcc.1 then (vc.1, cvcc.2)
      else cvcc)
    ((0 : Int), (0 : Nat))).1

/-- The 2-bit code chosen for a delta (0 = common, 1/2/3 = 8/16/32-bit). -/
def usdCode (common delta : Int) : Nat :=
  if delta = common then 0
  else if delta ≤ 127 ∧ -128 ≤ delta then 1
  else if delta ≤ 32767 ∧ -32768 ≤ delta then 2
  else 3

/-- The payload bytes for a delta (absent, `setInt8`, `setInt16` LE, or
`setInt32` LE — the 32-bit case wraps mod 2^32 like `DataView`). -/
def usdPayloadChunk (common delta : Int) : List Nat :=
  match usdCode common delta with
  | 0 => []
  | 1 => [((delta % 256).toNat)]
  | 2 => natLE 2 (delta % 65536).toNat
  | _ => natLE 4 (delta % 4294967296).toNat

/-- Read the 2-bit slot `v` of a code-table byte list. -/
def getSlot (tbl : List Nat) (v : Nat) : Nat :=
  (tbl.getD (v / 4) 0 >>> (v % 4 * 2)) &&& 3

/-- `data[⌊i/4⌋] |= c << ((i%4)*2)` on the local table. -/
def orSlot (tbl : List Nat) (v : Nat) (c : Nat) : List Nat :=
  tbl.set (v / 4) ((tbl.getD (v / 4) 0) ||| (c <<< (v % 4 * 2)))

/-- OR the per-element codes into the (initially zero) code table. -/
def buildTableGo (tbl : List Nat) (v0 : Nat) : List Nat → List Nat
  | [] => tbl
  | c :: cs => buildTableGo (orSlot tbl v0 c) (v0 + 1) cs

/-- The per-element codes of a delta list. -/
def usdCodes (common : Int) (deltas : List Int) : List Nat :=
  deltas.map (usdCode common)

/-- The concatenated payload of a delta list. -/
def usdPayload (common : Int) (deltas : List Int) : List Nat :=
  deltas.flatMap (usdPayloadChunk common)

/-- Model of `usdInt32Compress` (see the section comment for the
correspondence with the source's single scratch buffer). -/
def usdInt32Compress (values : List Int) : List Nat :=
  if values.length = 0 then [] else
  let deltas := usdDeltas 0 values
  let commonValue := usdCommon (usdTally deltas)
  let tableLen := (values.length * 2 + 7) / 8
  natLE 4 (commonValue % 4294967296).toNat
    ++ buildTableGo (List.replicate tableLen 0) 0 (usdCodes commonValue deltas)
    ++ usdPayload commonValue deltas

/-- Reference decoder for the USD integer coding (not part of the
repository; defined from the spec's description of the stream: 4-byte
little-endian common value, 2-bits-per-element code table with element
`v` at bit position `(v+16)·2`, variable-width signed little-endian
payload read in order, deltas accumulated in 32-bit integer arithmetic
starting from 0 — the arithmetic of USD's `integerCoding.cpp` decoder). -/
def usdDecodeGo (bytes : List Nat) (common : Int) (v p : Nat) (prev : Int) :
    Nat → List Int
  | 0 => []
  | rem + 1 =>
    let i := v + 16
    let c := (bytes.getD (i / 4) 0 >>> (i % 4 * 2)) &&& 3
    let dp : Int × Nat :=
      match c with
      | 0 => (common, p)
      | 1 => (asInt8 (bytes.getD p 0), p + 1)
      | 2 => (asInt16 (readNatLE bytes p 2), p + 2)
      | _ => (asInt32 (readNatLE bytes p 4), p + 4)
    let value := asInt32 (prev + dp.1)
    value :: usdDecodeGo bytes common (v + 1) dp.2 value rem

/-- Decode `n` integers from a USD-integer-coded byte string. -/
def usdInt32Decode (n : Nat) (bytes : List Nat) : List Int :=
  if n = 0 then [] else
  usdDecodeGo bytes (asInt32 (readNatLE bytes 0 4)) 0 (4 + (n * 2 + 7) / 8) 0 n

/-! ## LZ4 block compressor — `lz4CompressDefault` / `lz4Compress`

Byte reads off the end of a typed array yield `undefined`, which the
`|` chains coerce to 0; the model's `getD _ 0` matches (all reads in the
compressor are in bounds anyway).  `readLeUint32` in JS produces a
*signed* 32-bit value; only its equality class mod 2^32 and its hash are
ever used, so the model reads an unsigned `Nat` with the same 32 bits. -/

/-- `readLeUint32`. -/
def readLeU32 (buf : List Nat) (pos : Nat) : Nat :=
  buf.getD pos 0 + 256 * buf.getD (pos + 1) 0 + 65536 * buf.getD (pos + 2) 0
    + 16777216 * buf.getD (pos + 3) 0

/-- `PositionTable._hash`: `Math.imul(val, 2654435761) & 0x0FFF`. -/
def lz4Hash (v : Nat) : Nat := (v * 2654435761) % 4294967296 &&& 0x0FFF

/-- `countMatch`: count equal bytes at `front`/`back`, stopping when
`back` passes `max` (inclusive bound, as in the source's `back <= max`). -/
def countMatch (buf : List Nat) (front back max : Nat) : Nat :=
  if back ≤ max then
    if buf.getD front 0 = buf.getD back 0 then
      countMatch buf (front + 1) (back + 1) max + 1
    else 0
  else 0
  termination_by max + 1 - back

/-- The 255-run continuation bytes for a length remainder (the source's
`while (rem >= 255) emit 255; emit rem`). -/
def contBytes (rem : Nat) : List Nat :=
  if rem ≥ 255 then 255 :: contBytes (rem - 255) else [rem]
  termination_by rem

/--
`copySequence`: the bytes emitted for one LZ4 sequence.  The source
writes the token byte first and later ORs the match-length nibble into
it; since the literal nibble occupies the high 4 bits and the match
nibble the low 4, the OR equals building the token up front.
-/
def copySequence (literal : List Nat) (matchOffset matchLen : Nat) : List Nat :=
  let litLen := literal.length
  let litNib := if litLen ≥ 15 then 15 else litLen
  let token :=
    if matchLen > 0 then
      litNib <<< 4 ||| (if matchLen - 4 ≥ 15 then 15 else matchLen - 4)
    else litNib <<< 4
  (token :: (if litLen ≥ 15 then contBytes (litLen - 15) else []))
    ++ literal
    ++ (if matchLen > 0 then
          natLE 2 matchOffset
            ++ (if matchLen - 4 ≥ 15 then contBytes (matchLen - 4 - 15) else [])
        else [])

/-- The main greedy loop of `lz4CompressDefault`.  `table` is the 4096
entry position table (modelled as a function on hash values, −1 = empty);
the source's early `break` on a sub-`MIN_MATCH` match falls through to
the final-literal write with the current `literalHead`. -/
def lz4Go (src : List Nat) (srcPtr literalHead : Nat) (table : Nat → Int)
    (acc : List Nat) : List Nat :=
  let maxIndex := src.length - 12
  if h : srcPtr < maxIndex then
    let curValue := readLeU32 src srcPtr
    let matchPos := table (lz4Hash curValue)
    if matchPos ≠ -1 ∧ curValue = readLeU32 src matchPos.toNat ∧
        (srcPtr : Int) - matchPos ≤ 65535 then
      let length := countMatch src matchPos.toNat srcPtr maxIndex
      if h2 : length < 4 then
        acc ++ copySequence (src.drop literalHead) 0 0
      else
        lz4Go src (srcPtr + length) (srcPtr + length) table
          (acc ++ copySequence ((src.drop literalHead).take (srcPtr - literalHead))
            (srcPtr - matchPos.toNat) length)
    else
      lz4Go src (srcPtr + 1) literalHead
        (fun k => if k = lz4Hash curValue then (srcPtr : Int) else table k) acc
  else
    acc ++ copySequence (src.drop literalHead) 0 0
  termination_by src.length - srcPtr
  decreasing_by
  all_goals simp_wf
  all_goals (try unfold_let length matchPos curValue maxIndex at h2 h)
  all_goals omega

/-- `lz4CompressDefault`. -/
def lz4CompressDefault (src : List Nat) : List Nat :=
  lz4Go src 0 0 (fun _ => -1) []

/-- `lz4Compress`: empty input short-circuits to an empty array (before
the size check and without the padding byte); oversized input throws;
otherwise a single zero padding byte is prepended. -/
def lz4Compress (src : List Nat) : Except String (List Nat) :=
  if src.length = 0 then .ok []
  else if src.length > 0x7E000000 then .error "Buffer too large for LZ4 compression"
  else .ok (0 :: lz4CompressDefault src)

/-! ### Reference LZ4 block decoder (not part of the repository) -/

/-- Parse a 255-run length continuation. -/
def readLenCont : List Nat → Option (Nat × List Nat)
  | [] => none
  | b :: rest =>
    if b = 255 then (readLenCont rest).map (fun nr => (nr.1 + 255, nr.2))
    else some (b, rest)

/-- Parse a sequence length from its token nibble plus continuation. -/
def readLen (base : Nat) (input : List Nat) : Option (Nat × List Nat) :=
  if base = 15 then (readLenCont input).map (fun nr => (15 + nr.1, nr.2))
  else some (base, input)

/-- Byte-by-byte back-reference copy (overlap-safe, as LZ4 requires). -/
def matchCopy (out : List Nat) (offset : Nat) : Nat → List Nat
  | 0 => out
  | n + 1 => matchCopy (out ++ [out.getD (out.length - offset) 0]) offset n

/-- One-block LZ4 decoder: token, literal run, then (unless the block
ends) a 16-bit offset and a back-reference copy of `matchLen + 4`. -/
def lz4DecodeGo (out input : List Nat) : Nat → Option (List Nat)
  | 0 => none
  | fuel + 1 =>
    match input with
    | [] => some out
    | token :: rest =>
      match readLen (token >>> 4) rest with
      | none => none
      | some (litLen, rest1) =>
        if rest1.length < litLen then none else
        let out1 := out ++ rest1.take litLen
        match rest1.drop litLen with
        | [] => some out1
        | [_] => none
        | o0 :: o1 :: rest3 =>
          let offset := o0 + 256 * o1
          match readLen (token &&& 15) rest3 with
          | none => none
          | some (mBase, rest4) =>
            if offset = 0 ∨ out1.length < offset then none
            else lz4DecodeGo (matchCopy out1 offset (mBase + 4)) rest4 fuel

/-- Decode an LZ4 block. -/
def lz4Decompress (input : List Nat) : Option (List Nat) :=
  lz4DecodeGo [] input (input.length + 1)

/-! ## USD scene tree — `UsdAttribute` / `UsdPrim` / `UsdData`

Object identity (needed because connections and relationships alias
tree nodes, and `pathIndex` is a mutable field read through those
aliases) is modelled by a node id; the mutable `pathIndex` fields live in
an environment `Env : Nat → Int` keyed by id.  Attribute values are the
tagged sum of the value shapes the writer dispatches on; IEEE-754
payloads are carried as bit patterns (`addFieldFloat` reinterprets the
f32 cast as an i32, `Float32Array` buffers are copied verbatim). -/

/-- Spec types (crate enum values used by the writer). -/
def specTypeAttribute : Nat := 1
def specTypePrim : Nat := 6
def specTypePseudoRoot : Nat := 7
def specTypeRelationship : Nat := 8

/-- Value types (crate enum values used by the writer). -/
def vtBool : Nat := 1
def vtInt : Nat := 3
def vtFloat : Nat := 8
def vtToken : Nat := 11
def vtMatrix4d : Nat := 15
def vtVec3f : Nat := 24
def vtDictionary : Nat := 31
def vtPathListOp : Nat := 34
def vtPathVector : Nat := 40
def vtTokenVector : Nat := 41
def vtSpecifier : Nat := 42
def vtVariability : Nat := 44
def vtTimeSamples : Nat := 46
def vtDoubleVector : Nat := 48

/-- Attribute value payloads (`UsdAttribute.value`). -/
inductive AttValueM where
  | vNone
  | vToken (s : String)
  | vTokenArr (ss : List String)
  | vInts (xs : List Int)
  | vFloat (bits : Int)               -- f32 bit pattern as a signed i32
  | vVec3fArr (bits : List Nat)       -- Float32Array contents, 32-bit patterns
  | vVec3f (bits : List Nat)
  | vBool (b : Bool)
  | vSpecifier (n : Nat)
  | vDict (entries : List (String × String))
  | vConn (targetId : Nat)            -- value instanceof UsdAttribute
  | vRel (targetId : Nat)             -- value instanceof UsdPrim
deriving Repr, DecidableEq

/-- Prim metadata values (string / number / boolean / dictionary /
prim reference for `inherits`). -/
inductive MetaValueM where
  | mStr (s : String)
  | mNum (bits : Int)
  | mBool (b : Bool)
  | mDict (entries : List (String × String))
  | mPrimRef (targetId : Nat)
deriving Repr, DecidableEq

structure UsdAttributeM where
  id : Nat
  name : String
  value : AttValueM
  frames : List (Nat × AttValueM) := []
  qualifiers : List String := []
  metadata : List (String × String) := []
  valueType : Nat
  valueTypeStr : String
  isArray : Bool := false
deriving Repr, DecidableEq

inductive UsdPrimM where
  | mk (id : Nat) (name : String) (classType : String)
      (metadata : List (String × MetaValueM)) (children : List UsdPrimM)
      (attributes : List UsdAttributeM)
deriving Repr

def UsdPrimM.id : UsdPrimM → Nat
  | .mk i _ _ _ _ _ => i

def UsdPrimM.name : UsdPrimM → String
  | .mk _ n _ _ _ _ => n

def UsdPrimM.classType : UsdPrimM → String
  | .mk _ _ c _ _ _ => c

def UsdPrimM.metadata : UsdPrimM → List (String × MetaValueM)
  | .mk _ _ _ m _ _ => m

def UsdPrimM.children : UsdPrimM → List UsdPrimM
  | .mk _ _ _ _ ch _ => ch

def UsdPrimM.attributes : UsdPrimM → List UsdAttributeM
  | .mk _ _ _ _ _ atts => atts

mutual
/-- `UsdPrim.countItems`. -/
def UsdPrimM.countItems : UsdPrimM → Nat
  | .mk _ _ _ _ children attributes =>
    attributes.length + children.length + countItemsList children
  termination_by structural t => t

def countItemsList : List UsdPrimM → Nat
  | [] => 0
  | p :: ps => p.countItems + countItemsList ps
  termination_by structural l => l
end

/-- `UsdPrim.getPathJump` (the four-case jump formula; sibling/child
tests compare object identity, here node ids). -/
def primPathJump (parent : Option UsdPrimM) (p : UsdPrimM) : Int :=
  let hasSibling :=
    match parent with
    | none => false
    | some par =>
      (par.children.getLast?.map UsdPrimM.id != some p.id)
        || !par.attributes.isEmpty
  let hasChild := !p.children.isEmpty || !p.attributes.isEmpty
  if hasSibling && hasChild then (p.countItems + 1 : Int)
  else if hasSibling then 0
  else if hasChild then -1
  else -2

/-- `UsdAttribute.getPathJump` (−2 exactly for the last attribute). -/
def attPathJump (parent : UsdPrimM) (a : UsdAttributeM) : Int :=
  if parent.attributes.getLast?.map UsdAttributeM.id = some a.id then -2 else 0

/-- The mutable per-object `pathIndex` fields, keyed by node id. -/
def Env : Type := Nat → Int

def setEnv (e : Env) (k : Nat) (v : Int) : Env :=
  fun x => if x = k then v else e x

mutual
/-- Ids of all attributes in a prim subtree (their `pathIndex` fields
initialize to −1, while prim fields initialize to 0). -/
def primAttIds : UsdPrimM → List Nat
  | .mk _ _ _ _ children attributes =>
    attributes.map UsdAttributeM.id ++ primsAttIds children
  termination_by structural t => t

def primsAttIds : List UsdPrimM → List Nat
  | [] => []
  | p :: ps => primAttIds p ++ primsAttIds ps
  termination_by structural l => l
end

/-- Initial `pathIndex` environment of a freshly built tree. -/
def initEnv (root : UsdPrimM) : Env :=
  fun k => if k ∈ primAttIds root then -1 else 0

/-- `att.pathIndex = this.pathIndex` for each attribute, bumping the
counter once per attribute (the counter value itself is not stored). -/
def updAtts (env : Env) (primId : Nat) (atts : List UsdAttributeM) (idx : Int) :
    Env × Int :=
  match atts with
  | [] => (env, idx)
  | a :: rest => updAtts (setEnv env a.id (env primId)) primId rest (idx + 1)

mutual
/-- `UsdPrim.updatePathIndices`: assign own index, recurse into children,
then give each attribute the prim's (current) own index. -/
def updPrim (env : Env) (p : UsdPrimM) (idx : Int) : Env × Int :=
  match p with
  | .mk id _ _ _ children attributes =>
    let env := setEnv env id idx
    let r := updPrims env children (idx + 1)
    updAtts r.1 id attributes r.2
  termination_by structural p

def updPrims (env : Env) (ps : List UsdPrimM) (idx : Int) : Env × Int :=
  match ps with
  | [] => (env, idx)
  | p :: rest =>
    let r := updPrim env p idx
    updPrims r.1 rest r.2
  termination_by structural ps
end

/-- `UsdData.updatePathIndices`: children are renumbered from 1; the
root's own field keeps its initial 0 and root attributes are skipped. -/
def updTop (root : UsdPrimM) : Env :=
  (updPrims (initEnv root) root.children 1).1

/-! ## Crate writer — `CrateFile` -/

/-- The `CrateFile` intern tables and byte-sink write position.  The
claims settled against this model concern the `paths`/`specs` tables and
the `pathIndex` environment; the byte sink's contents feed none of them,
so only its write position (`file.tell()`) is tracked, advanced by the
exact byte counts the source writes. -/
structure CrateState where
  filePos : Nat
  tokenMap : List (String × Nat)
  tokens : List String
  strings : List Nat
  fields : List Nat
  reps : List Nat                      -- 64-bit rep words (bit patterns)
  repsMap : List (Int × Nat)
  fsets : List Int
  paths : List (Int × Int × Int)
  specs : List (Nat × Nat × Nat)
  writtenKeys : List (List Int)
  writtenVals : List Nat
  framesRef : Int
deriving Repr, DecidableEq

def initCrate : CrateState :=
  ⟨0, [], [], [], [], [], [], [], [], [], [], [], -1⟩

namespace CrateFile

/-- Advance the byte sink by `n` written bytes. -/
def wr (n : Nat) (st : CrateState) : CrateState :=
  { st with filePos := st.filePos + n }

/-- `getTokenIndex`: intern a token string. -/
def getTokenIndex (s : String) (st : CrateState) : Nat × CrateState :=
  match st.tokenMap.find? (fun p => p.1 == s) with
  | some p => (p.2, st)
  | none =>
    (st.tokens.length,
      { st with tokenMap := st.tokenMap ++ [(s, st.tokens.length)],
                tokens := st.tokens ++ [s] })

/-- `getStringIndex`. -/
def getStringIndex (s : String) (st : CrateState) : Nat × CrateState :=
  let r := getTokenIndex s st
  match r.2.strings.findIdx? (fun t => t == r.1) with
  | some i => (i, r.2)
  | none => (r.2.strings.length, { r.2 with strings := r.2.strings ++ [r.1] })

/-- `addFieldSet`: append the group plus the −1 sentinel. -/
def addFieldSet (fset : List Int) (st : CrateState) : Nat × CrateState :=
  (st.fsets.length, { st with fsets := st.fsets ++ fset ++ [-1] })

/-- `addFieldItem`: build the dedup key and the 64-bit rep word from the
payload and flags, reusing an existing rep slot on a key hit. -/
def addFieldItem (field : Nat) (vType : Nat) (array inline compressed : Bool)
    (payload : Int) (st : CrateState) : Nat × CrateState :=
  let repIndex := st.reps.length
  let upper0 : Nat := vType <<< 16
  let key0 : Int := payload + (field : Int) * 4294967296
  let u1 := if array then upper0 ||| (1 <<< 31) else upper0
  let k1 := if array then key0 + 4398046511104 else key0
  let u2 := if compressed then u1 ||| (1 <<< 29) else u1
  let k2 := if compressed then k1 + 1099511627776 else k1
  let u3 := if inline then u2 ||| (1 <<< 30) else u2
  let k3 := if inline then k2 + 2199023255552 else k2
  let rep := toUint32 payload + 4294967296 * u3
  match st.repsMap.find? (fun p => p.1 == k3) with
  | some p => (p.2, st)
  | none =>
    (repIndex,
      { st with repsMap := st.repsMap ++ [(k3, repIndex)],
                fields := st.fields ++ [field],
                reps := st.reps ++ [rep] })

/-- Intern a list of token strings left to right. -/
def internTokens : List String → CrateState → List Nat × CrateState
  | [], st => ([], st)
  | s :: rest, st =>
    let r := getTokenIndex s st
    let r2 := internTokens rest r.2
    (r.1 :: r2.1, r2.2)

/-- `token.replace(/"/g, '')`: delete every double-quote character. -/
def stripQuotes (s : String) : String := ⟨s.data.filter (fun c => c ≠ '"')⟩

/-- `getDataReference`: linear scan for an element-wise equal array. -/
def getDataReference (data : List Int) (st : CrateState) : Int :=
  match (st.writtenKeys.zip st.writtenVals).find? (fun p => p.1 == data) with
  | some p => (p.2 : Int)
  | none => -1

/-- `addWrittenData`. -/
def addWrittenData (data : List Int) (ref : Nat) (st : CrateState) : CrateState :=
  { st with writtenKeys := st.writtenKeys ++ [data],
            writtenVals := st.writtenVals ++ [ref] }

/-- `addFieldTokens` (token array): u64 count + i32 indices out of line. -/
def addFieldTokens (field : String) (data : List String) (st : CrateState) :
    Nat × CrateState :=
  let r := getTokenIndex field st
  let r2 := internTokens (data.map stripQuotes) r.2
  let ref := r2.2.filePos
  let st := wr (8 + 4 * r2.1.length) r2.2
  addFieldItem r.1 vtToken true false false ref st

/-- `addFieldToken` (inline token payload). -/
def addFieldToken (field data : String) (st : CrateState) : Nat × CrateState :=
  let r := getTokenIndex field st
  let r2 := getTokenIndex (stripQuotes data) r.2
  addFieldItem r.1 vtToken false true false r2.1 r2.2

/-- `addFieldTokenVector`: out-of-line u64 count + i32 indices + 4 zero
bytes, deduplicated by exact array equality. -/
def addFieldTokenVector (field : String) (tokens : List String) (st : CrateState) :
    Nat × CrateState :=
  let r := getTokenIndex field st
  let r2 := internTokens (tokens.map stripQuotes) r.2
  let dataI := r2.1.map Int.ofNat
  let ref0 := getDataReference dataI r2.2
  if ref0 < 0 then
    let ref := r2.2.filePos
    let st := addWrittenData dataI ref r2.2
    let st := wr (8 + 4 * r2.1.length + 4) st
    addFieldItem r.1 vtTokenVector false false false ref st
  else
    addFieldItem r.1 vtTokenVector false false false ref0 r2.2

/-- `addFieldPathListOp`: u8 op, u64 count=1, i32 path index. -/
def addFieldPathListOp (field : String) (pathIndex : Int) (st : CrateState) :
    Nat × CrateState :=
  let r := getTokenIndex field st
  let ref := r.2.filePos
  let st := wr (1 + 8 + 4) r.2
  addFieldItem r.1 vtPathListOp false false false ref st

/-- `addFieldPathVector`: u64 count=1, i32 path index. -/
def addFieldPathVector (field : String) (pathIndex : Int) (st : CrateState) :
    Nat × CrateState :=
  let r := getTokenIndex field st
  let ref := r.2.filePos
  let st := wr (8 + 4) r.2
  addFieldItem r.1 vtPathVector false false false ref st

/-- `addFieldSpecifier` (inline). -/
def addFieldSpecifier (field : String) (spec : Nat) (st : CrateState) :
    Nat × CrateState :=
  let r := getTokenIndex field st
  addFieldItem r.1 vtSpecifier false true false spec r.2

/-- `addFieldInts`: dedup by array equality; u64 count, then either the
LZ4+USD-int-coded block (length-prefixed) for ≥ 16 elements or raw i32s.
The oversized-LZ4 throw propagates. -/
def addFieldInts (field : String) (data : List Int) (st : CrateState) :
    Except String (Nat × CrateState) :=
  let r := getTokenIndex field st
  let compress := data.length ≥ 16
  let ref0 := getDataReference data r.2
  if ref0 < 0 then
    let ref := r.2.filePos
    let st := addWrittenData data ref r.2
    let st := wr 8 st
    if compress then
      match lz4Compress (usdInt32Compress data) with
      | .error e => .error e
      | .ok buf =>
        let st := wr (8 + buf.length) st
        .ok (addFieldItem r.1 vtInt true false compress ref st)
    else
      let st := wr (4 * data.length) st
      .ok (addFieldItem r.1 vtInt true false compress ref st)
  else
    .ok (addFieldItem r.1 vtInt true false compress ref0 r.2)

/-- `addFieldFloat` (inline f32 bits reinterpreted as i32). -/
def addFieldFloat (field : String) (bits : Int) (st : CrateState) :
    Nat × CrateState :=
  let r := getTokenIndex field st
  addFieldItem r.1 vtFloat false true false bits r.2

/-- `addFieldVectors` (vec3f array): u64 count=len/3, then raw f32s. -/
def addFieldVectors (field : String) (floats : List Nat) (st : CrateState) :
    Nat × CrateState :=
  let r := getTokenIndex field st
  let ref := r.2.filePos
  let st := wr (8 + 4 * floats.length) r.2
  addFieldItem r.1 vtVec3f true false false ref st

/-- `addFieldVector` (vec3f scalar): raw f32s, no count prefix. -/
def addFieldVector (field : String) (floats : List Nat) (st : CrateState) :
    Nat × CrateState :=
  let r := getTokenIndex field st
  let ref := r.2.filePos
  let st := wr (4 * floats.length) r.2
  addFieldItem r.1 vtVec3f false false false ref st

/-- `addFieldBool` (inline 0/1). -/
def addFieldBool (field : String) (data : Bool) (st : CrateState) :
    Nat × CrateState :=
  let r := getTokenIndex field st
  addFieldItem r.1 vtBool false true false (if data then 1 else 0) r.2

/-- `addFieldVariability` (inline 0/1). -/
def addFieldVariability (field : String) (data : Bool) (st : CrateState) :
    Nat × CrateState :=
  let r := getTokenIndex field st
  addFieldItem r.1 vtVariability false true false (if data then 1 else 0) r.2

/-- The per-entry writes of `addFieldDictionary` (string indices interned
in iteration order; 4 + 8 + 4 + 4 bytes per entry). -/
def dictEntryWrites : List (String × String) → CrateState → CrateState
  | [], st => st
  | (k, v) :: rest, st =>
    let r := getStringIndex k st
    let st := wr 4 r.2
    let st := wr 8 st
    let r2 := getStringIndex v st
    let st := wr 4 r2.2
    let st := wr 4 st
    dictEntryWrites rest st

/-- `addFieldDictionary`: out-of-line u64 count plus per-entry blocks. -/
def addFieldDictionary (field : String) (data : List (String × String))
    (st : CrateState) : Nat × CrateState :=
  let r := getTokenIndex field st
  let ref := r.2.filePos
  let st := wr 8 r.2
  let st := dictEntryWrites data st
  addFieldItem r.1 vtDictionary false false false ref st

/-- Byte count of one time-sample value write (`vec3f` writes the f32
buffer; `matrix4d` would write an f64 buffer; other types write nothing
— the exporter never samples them). -/
def frameValueBytes (vType : Nat) (v : AttValueM) : Nat :=
  if vType = vtVec3f then
    match v with
    | .vVec3fArr bs => 4 * bs.length
    | .vVec3f bs => 4 * bs.length
    | _ => 0
  else 0

/-- `addFieldTimeSamples`: per-frame value blocks, the (shared) frames
block or a pointer to it, then the per-sample pointer table. -/
def addFieldTimeSamples (field : String) (data : List (Nat × AttValueM))
    (vType : Nat) (st : CrateState) : Nat × CrateState :=
  let r := getTokenIndex field st
  let count := data.length
  let size := 8 * (count + 2)
  let st := data.foldl (fun st fv => wr (frameValueBytes vType fv.2) st) r.2
  let ref := st.filePos
  let st :=
    if st.framesRef > 0 then
      wr (8 + 6 + 1 + 1) st
    else
      { wr (8 + 8 + 8 * count + 6 + 1 + 1) st with framesRef := ref }
  let st := wr (8 + 8) st
  let st := wr ((6 + 1 + 1) * count) st
  let _ := size
  addFieldItem r.1 vtTimeSamples false false false ref st

/-- `addField`: dispatch on the attribute's `ValueType` (unsupported
types throw `'Unknown type'`; a value whose shape does not match its
declared type would misbehave in the source and is rejected here). -/
def addField (field : String) (att : UsdAttributeM) (st : CrateState) :
    Except String (Nat × CrateState) :=
  if att.valueType = vtToken then
    if att.isArray then
      match att.value with
      | .vTokenArr ss => .ok (addFieldTokens field ss st)
      | _ => .error "model: token array value expected"
    else
      match att.value with
      | .vToken s => .ok (addFieldToken field s st)
      | _ => .error "model: token value expected"
  else if att.valueType = vtSpecifier then
    match att.value with
    | .vSpecifier n => .ok (addFieldSpecifier field n st)
    | _ => .error "model: specifier value expected"
  else if att.valueType = vtInt then
    match att.value with
    | .vInts xs => addFieldInts field xs st
    | _ => .error "model: int array value expected"
  else if att.valueType = vtFloat then
    match att.value with
    | .vFloat bits => .ok (addFieldFloat field bits st)
    | _ => .error "model: float value expected"
  else if att.valueType = vtVec3f then
    if att.isArray then
      match att.value with
      | .vVec3fArr bs => .ok (addFieldVectors field bs st)
      | _ => .error "model: vec3f array value expected"
    else
      match att.value with
      | .vVec3f bs => .ok (addFieldVector field bs st)
      | _ => .error "model: vec3f value expected"
  else if att.valueType = vtBool then
    match att.value with
    | .vBool b => .ok (addFieldBool field b st)
    | _ => .error "model: bool value expected"
  else if att.valueType = vtVariability then
    match att.value with
    | .vBool b => .ok (addFieldVariability field b st)
    | _ => .error "model: bool value expected"
  else if att.valueType = vtDictionary then
    match att.value with
    | .vDict d => .ok (addFieldDictionary field d st)
    | _ => .error "model: dictionary value expected"
  else
    .error "Unknown type"

/-- `addSpec`: the new spec's path index is the running spec count. -/
def addSpec (fset : Nat) (sType : Nat) (st : CrateState) : Nat × CrateState :=
  (st.specs.length,
    { st with specs := st.specs ++ [(st.specs.length, fset, sType)] })

/-- `addPath`: the token index is negated exactly when the `prim` flag is
set — and the *attribute* writers pass `true` while `writeUsdPrim`
passes `false`. -/
def addPath (path : Int) (token : Nat) (jump : Int) (prim : Bool)
    (st : CrateState) : CrateState :=
  { st with paths :=
      st.paths ++ [(path, if prim then -(token : Int) else (token : Int), jump)] }

/-- The qualifier loop shared by the attribute writers (`uniform` adds a
variability field, `custom` a bool field, others add nothing). -/
def addQualifierFields : List String → CrateState → List Int × CrateState
  | [], st => ([], st)
  | q :: rest, st =>
    if q = "uniform" then
      let r := addFieldVariability "variability" true st
      let r2 := addQualifierFields rest r.2
      ((r.1 : Int) :: r2.1, r2.2)
    else if q = "custom" then
      let r := addFieldBool "custom" true st
      let r2 := addQualifierFields rest r.2
      ((r.1 : Int) :: r2.1, r2.2)
    else
      addQualifierFields rest st

/-- `writeUsdConnection` (spec type Attribute, path entry with the
`prim` flag set, i.e. negated token). -/
def writeUsdConnection (parent : UsdPrimM) (att : UsdAttributeM) (targetId : Nat)
    (env : Env) (st : CrateState) : Env × CrateState :=
  let pathIndex := env targetId
  let r1 := addFieldToken "typeName" "token" st
  let rq := addQualifierFields att.qualifiers r1.2
  let r2 := addFieldPathListOp "connectionPaths" pathIndex rq.2
  let r3 := addFieldPathVector "connectionChildren" pathIndex r2.2
  let fset := (r1.1 : Int) :: rq.1 ++ [(r2.1 : Int), (r3.1 : Int)]
  let rf := addFieldSet fset r3.2
  let rs := addSpec rf.1 specTypeAttribute rf.2
  let env := setEnv env att.id (rs.1 : Int)
  let rn := getTokenIndex att.name rs.2
  let pathJump := attPathJump parent att
  (env, addPath (env att.id) rn.1 pathJump true rn.2)

/-- `writeUsdRelationship` (spec type Relationship, `prim` flag set). -/
def writeUsdRelationship (parent : UsdPrimM) (att : UsdAttributeM) (targetId : Nat)
    (env : Env) (st : CrateState) : Env × CrateState :=
  let pathIndex := env targetId
  let r1 := addFieldVariability "variability" true st
  let r2 := addFieldPathListOp "targetPaths" pathIndex r1.2
  let r3 := addFieldPathVector "targetChildren" pathIndex r2.2
  let rf := addFieldSet [(r1.1 : Int), (r2.1 : Int), (r3.1 : Int)] r3.2
  let rs := addSpec rf.1 specTypeRelationship rf.2
  let env := setEnv env att.id (rs.1 : Int)
  let rn := getTokenIndex att.name rs.2
  let pathJump := attPathJump parent att
  (env, addPath (env att.id) rn.1 pathJump true rn.2)

/-- The attribute-metadata loop of `writeUsdAttribute` (each entry is a
token field). -/
def addAttMetadataFields : List (String × String) → CrateState →
    List Int × CrateState
  | [], st => ([], st)
  | (name, value) :: rest, st =>
    let r := addFieldToken name value st
    let r2 := addAttMetadataFields rest r.2
    ((r.1 : Int) :: r2.1, r2.2)

/-- `writeUsdAttribute` (plain attribute; spec type Attribute, `prim`
flag set on its path entry). -/
def writeUsdAttribute (parent : UsdPrimM) (att : UsdAttributeM)
    (env : Env) (st : CrateState) : Except String (Env × CrateState) :=
  let r1 := addFieldToken "typeName" att.valueTypeStr st
  let rq := addQualifierFields att.qualifiers r1.2
  let rm := addAttMetadataFields att.metadata rq.2
  let fset0 := (r1.1 : Int) :: rq.1 ++ rm.1
  let next : Except String (List Int × CrateState) :=
    if att.value ≠ AttValueM.vNone then
      match addField "default" att rm.2 with
      | .error e => .error e
      | .ok r => .ok (fset0 ++ [(r.1 : Int)], r.2)
    else
      .ok (fset0, rm.2)
  match next with
  | .error e => .error e
  | .ok (fset1, st) =>
    let r2 : List Int × CrateState :=
      if att.frames ≠ [] then
        let r := addFieldTimeSamples "timeSamples" att.frames att.valueType st
        (fset1 ++ [(r.1 : Int)], r.2)
      else (fset1, st)
    let rf := addFieldSet r2.1 r2.2
    let rs := addSpec rf.1 specTypeAttribute rf.2
    let env := setEnv env att.id (rs.1 : Int)
    let rn := getTokenIndex att.name rs.2
    let pathJump := attPathJump parent att
    .ok (env, addPath (env att.id) rn.1 pathJump true rn.2)

/-- The prim-metadata loop of `writeUsdPrim`: `inherits` becomes a
PathListOp on the target prim's current path index, `references` throws
`'Not implemented'`, dictionaries/strings/numbers/booleans dispatch by
runtime type. -/
def addPrimMetadataFields (env : Env) :
    List (String × MetaValueM) → CrateState → Except String (List Int × CrateState)
  | [], st => .ok ([], st)
  | (name, value) :: rest, st =>
    let step : Except String (Nat × CrateState) :=
      if name = "inherits" then
        match value with
        | .mPrimRef tid => .ok (addFieldPathListOp "inheritPaths" (env tid) st)
        | _ => .error "model: inherits expects a prim reference"
      else if name = "references" then
        .error "Not implemented"
      else
        match value with
        | .mDict d => .ok (addFieldDictionary name d st)
        | .mStr s => .ok (addFieldToken name s st)
        | .mNum bits => .ok (addFieldFloat name bits st)
        | .mBool b => .ok (addFieldBool name b st)
        | .mPrimRef _ => .error "model: prim reference outside inherits"
    match step with
    | .error e => .error e
    | .ok r =>
      match addPrimMetadataFields env rest r.2 with
      | .error e => .error e
      | .ok r2 => .ok ((r.1 : Int) :: r2.1, r2.2)

/-- The attribute loop of `writeUsdPrim` (`isConnection` /
`isRelationship` dispatch). -/
def writeUsdAttList (parent : UsdPrimM) (atts : List UsdAttributeM)
    (env : Env) (st : CrateState) : Except String (Env × CrateState) :=
  match atts with
  | [] => .ok (env, st)
  | a :: rest =>
    let step : Except String (Env × CrateState) :=
      match a.value with
      | .vConn tid => .ok (writeUsdConnection parent a tid env st)
      | .vRel tid => .ok (writeUsdRelationship parent a tid env st)
      | _ => writeUsdAttribute parent a env st
    match step with
    | .error e => .error e
    | .ok r => writeUsdAttList parent rest r.1 r.2

mutual
/-- `writeUsdPrim`: build the prim's field set, allocate its spec (the
spec index becomes the prim's new `pathIndex`), emit its path entry with
the `prim` flag *clear* (token not negated), then recurse into children
and finally write the attributes. -/
def writeUsdPrim (parent : Option UsdPrimM) (p : UsdPrimM)
    (env : Env) (st : CrateState) : Except String (Env × CrateState) :=
  match p with
  | .mk selfId selfName selfClass selfMeta children attributes =>
    let self : UsdPrimM := .mk selfId selfName selfClass selfMeta children attributes
    let r1 := addFieldSpecifier "specifier" 0 st
    let r2 := addFieldToken "typeName" selfClass r1.2
    match addPrimMetadataFields env selfMeta r2.2 with
    | .error e => .error e
    | .ok rm =>
      let rp : List Int × CrateState :=
        if attributes ≠ [] then
          let r := addFieldTokenVector "properties"
            (attributes.map UsdAttributeM.name) rm.2
          (rm.1 ++ [(r.1 : Int)], r.2)
        else (rm.1, rm.2)
      let rc : List Int × CrateState :=
        if children.isEmpty then (rp.1, rp.2)
        else
          let r := addFieldTokenVector "primChildren"
            (children.map UsdPrimM.name) rp.2
          (rp.1 ++ [(r.1 : Int)], r.2)
      let fset := (r1.1 : Int) :: (r2.1 : Int) :: rc.1
      let rf := addFieldSet fset rc.2
      let rs := addSpec rf.1 specTypePrim rf.2
      let env := setEnv env selfId (rs.1 : Int)
      let rn := getTokenIndex selfName rs.2
      let pathJump := primPathJump parent self
      let st := addPath (env selfId) rn.1 pathJump false rn.2
      match writeUsdPrimList self children env st with
      | .error e => .error e
      | .ok r => writeUsdAttList self attributes r.1 r.2
  termination_by structural p

def writeUsdPrimList (parent : UsdPrimM) (ps : List UsdPrimM)
    (env : Env) (st : CrateState) : Except String (Env × CrateState) :=
  match ps with
  | [] => .ok (env, st)
  | c :: rest =>
    match writeUsdPrim (some parent) c env st with
    | .error e => .error e
    | .ok r => writeUsdPrimList parent rest r.1 r.2
  termination_by structural ps
end

/-- The root-metadata loop of `writeUsd` (only number/string/boolean
entries are written; other shapes fall through silently). -/
def addRootMetadataFields : List (String × MetaValueM) → CrateState →
    List Int × CrateState
  | [], st => ([], st)
  | (name, value) :: rest, st =>
    match value with
    | .mNum bits =>
      let r := addFieldFloat name bits st
      let r2 := addRootMetadataFields rest r.2
      ((r.1 : Int) :: r2.1, r2.2)
    | .mStr s =>
      let r := addFieldToken name s st
      let r2 := addRootMetadataFields rest r.2
      ((r.1 : Int) :: r2.1, r2.2)
    | .mBool b =>
      let r := addFieldBool name b st
      let r2 := addRootMetadataFields rest r.2
      ((r.1 : Int) :: r2.1, r2.2)
    | _ => addRootMetadataFields rest st

/--
`writeUsd`: renumber path indices, write the 88-byte bootstrap, write the
pseudo-root's field set / spec / path entry (token `''`, `prim` flag
clear), then the children.  The trailing `writeSections` /
`writeTableOfContents` only append bytes to the sink — they read and
write none of the intern tables or `pathIndex` fields — and are outside
this model, which tracks the sink only by its write position.
-/
def writeUsd (root : UsdPrimM) : Except String (Env × CrateState) :=
  let env := updTop root
  let st := wr 88 initCrate
  let rm := addRootMetadataFields root.metadata st
  let rc : List Int × CrateState :=
    if root.children.isEmpty then (rm.1, rm.2)
    else
      let r := addFieldTokenVector "primChildren"
        (root.children.map UsdPrimM.name) rm.2
      (rm.1 ++ [(r.1 : Int)], r.2)
  let rf := addFieldSet rc.1 rc.2
  let rs := addSpec rf.1 specTypePseudoRoot rf.2
  let env := setEnv env root.id (rs.1 : Int)
  let rn := getTokenIndex "" rs.2
  let pathJump := primPathJump none root
  let st := addPath (env root.id) rn.1 pathJump false rn.2
  writeUsdPrimList root root.children env st

end CrateFile

/-! ## The path-token sign discipline (claim C1) -/

/-- The two intern tables the path-token sign claims quantify over. -/
def tables (st : CrateState) :
    List (Nat × Nat × Nat) × List (Int × Int × Int) :=
  (st.specs, st.paths)

/-- The sign discipline relating one `specs` entry `(path, fset, sType)`
to the `paths` entry `(pathIndex, token, jump)` emitted alongside it:
prim and pseudo-root entries carry an unnegated (nonnegative) token
index, while attribute, connection and relationship entries carry a
negated (nonpositive) one. -/
def pathSignPair (sp : Nat × Nat × Nat) (pa : Int × Int × Int) : Prop :=
  ((sp.2.2 = specTypePrim ∨ sp.2.2 = specTypePseudoRoot) → 0 ≤ pa.2.1) ∧
  ((sp.2.2 = specTypeAttribute ∨ sp.2.2 = specTypeRelationship) → pa.2.1 ≤ 0)

/-- Writer-state invariant: `specs` and `paths` grow in lockstep and
every aligned pair obeys the sign discipline. -/
def crateSignInv (st : CrateState) : Prop :=
  List.Forall₂ pathSignPair st.specs st.paths

/-! ## Reference enumerations for the path-index claims (claim C2)

These definitions transcribe the assignment the claim describes, to be
compared with `updTop` (the embedded `updatePathIndices`) and with the
`pathIndex` reassignment `writeUsd` performs. -/

mutual
/-- The ids of a prim subtree in counter order: the prim itself, then
its children's subtrees, then its attributes — the order in which
`updatePathIndices` advances its counter and `writeUsdPrim` allocates
specs. -/
def nodeIds : UsdPrimM → List Nat
  | .mk id _ _ _ children attributes =>
    id :: (nodeIdsList children ++ attributes.map UsdAttributeM.id)
  termination_by structural t => t

def nodeIdsList : List UsdPrimM → List Nat
  | [] => []
  | p :: ps => nodeIds p ++ nodeIdsList ps
  termination_by structural l => l
end

/-- The ids `writeUsd` serializes: the pseudo-root, then each child
subtree (root attributes are never written). -/
def writtenIds (root : UsdPrimM) : List Nat :=
  root.id :: nodeIdsList root.children

mutual
/-- The prim ids of a subtree in DFS order. -/
def primIds : UsdPrimM → List Nat
  | .mk id _ _ _ children _ => id :: primIdsList children
  termination_by structural t => t

def primIdsList : List UsdPrimM → List Nat
  | [] => []
  | p :: ps => primIds p ++ primIdsList ps
  termination_by structural l => l
end

mutual
/-- `(parent prim id, attribute id)` pairs of a subtree. -/
def attPairs : UsdPrimM → List (Nat × Nat)
  | .mk id _ _ _ children attributes =>
    attPairsList children ++ attributes.map (fun a => (id, a.id))
  termination_by structural t => t

def attPairsList : List UsdPrimM → List (Nat × Nat)
  | [] => []
  | p :: ps => attPairs p ++ attPairsList ps
  termination_by structural l => l
end

mutual
/-- The assignment `updatePathIndices` performs, as an association
list: the prim gets the running index, the children follow from
`idx + 1`, and each attribute gets the prim's own index while the
counter still advances past it. -/
def updAssign : UsdPrimM → Int → List (Nat × Int)
  | .mk id _ _ _ children attributes, idx =>
    (id, idx) :: (updAssignList children (idx + 1) ++
      attributes.map (fun a => (a.id, idx)))
  termination_by structural t => t

def updAssignList : List UsdPrimM → Int → List (Nat × Int)
  | [], _ => []
  | p :: ps, idx =>
    updAssign p idx ++ updAssignList ps (idx + 1 + p.countItems)
  termination_by structural l => l
end

/-- Each id paired with its position in the given counter order. -/
def posAssign : List Nat → Int → List (Nat × Int)
  | [], _ => []
  | k :: rest, idx => (k, idx) :: posAssign rest (idx + 1)

/-! ## Concrete example inputs used by the claims -/

/-- The single-triangle mesh of scenario S2 (claim C9). -/
def triMesh : ObjMesh :=
  ⟨[(0, 0, 0), (1, 0, 0), (0, 1, 0)],
   [(0, 0, 1), (0, 0, 1), (0, 0, 1)],
   [0, 1, 2]⟩

/-- A mesh violating the §3 invariants: face index 5 with only 3
positions (claim C3). -/
def badMesh : ObjMesh :=
  ⟨[(0, 0, 0), (1, 0, 0), (0, 1, 0)],
   [(0, 0, 1), (0, 0, 1), (0, 0, 1)],
   [0, 1, 5]⟩

/-- A minimal scene tree: pseudo-root → one prim `a` carrying one plain
attribute `radius` (claims C1, C2). -/
def exAttr : UsdAttributeM :=
  { id := 2, name := "radius", value := .vNone,
    valueType := vtFloat, valueTypeStr := "float" }

def exPrim : UsdPrimM := .mk 1 "a" "Xform" [] [] [exAttr]

def exRoot : UsdPrimM := .mk 0 "" "" [] [exPrim] []

/-! # Theorems -/

/-! ## Little-endian helper lemmas -/

theorem readNatLE_append_right (l1 l2 : List Nat) (off w : Nat) :
    readNatLE (l1 ++ l2) (l1.length + off) w = readNatLE l2 off w := by
  induction w generalizing off with
  | zero => rfl
  | succ w ih =>
    simp only [readNatLE]
    rw [List.getD_append_right _ _ _ _ (by omega), Nat.add_sub_cancel_left,
      Nat.add_assoc, ih]

theorem readNatLE_at (l1 l2 : List Nat) (w off : Nat) (h : l1.length = off) :
    readNatLE (l1 ++ l2) off w = readNatLE l2 0 w := by
  subst h
  simpa using readNatLE_append_right l1 l2 0 w

theorem readNatLE_cons_succ (b : Nat) (t : List Nat) (off w : Nat) :
    readNatLE (b :: t) (off + 1) w = readNatLE t off w := by
  induction w generalizing off with
  | zero => rfl
  | succ w ih => simp only [readNatLE, List.getD_cons_succ, ih]

theorem byte_split (n M : Nat) (hM : 0 < M) :
    n % 256 + 256 * (n / 256 % M) = n % (256 * M) := by
  have key : n = 256 * M * (n / 256 / M) + (256 * (n / 256 % M) + n % 256) := by
    calc n = 256 * (n / 256) + n % 256 := (Nat.div_add_mod n 256).symm
    _ = 256 * (M * (n / 256 / M) + n / 256 % M) + n % 256 := by
          rw [Nat.div_add_mod (n / 256) M]
    _ = 256 * M * (n / 256 / M) + (256 * (n / 256 % M) + n % 256) := by ring
  have hlt : 256 * (n / 256 % M) + n % 256 < 256 * M := by
    have h1 : n / 256 % M < M := Nat.mod_lt _ hM
    have h2 : n % 256 < 256 := Nat.mod_lt _ (by norm_num)
    omega
  calc n % 256 + 256 * (n / 256 % M)
      = (256 * M * (n / 256 / M) + (256 * (n / 256 % M) + n % 256)) % (256 * M) := by
        rw [Nat.mul_add_mod, Nat.mod_eq_of_lt hlt]; ring
  _ = n % (256 * M) := by rw [← key]

theorem readNatLE_natLE (w n : Nat) (rest : List Nat) :
    readNatLE (natLE w n ++ rest) 0 w = n % 256 ^ w := by
  induction w generalizing n rest with
  | zero => simp [readNatLE, Nat.mod_one]
  | succ w ih =>
    show readNatLE ((n % 256) :: (natLE w (n / 256) ++ rest)) 0 (w + 1) = _
    simp only [readNatLE, List.getD_cons_zero]
    rw [show (0 + 1 : Nat) = 0 + 1 from rfl, readNatLE_cons_succ, ih, pow_succ,
      Nat.mul_comm (256 ^ w) 256]
    exact byte_split n (256 ^ w) (pow_pos (by norm_num) w)

/-! ## C4 — 8-byte signed writer -/

/--
C4 (code bug): the claim — restating the spec — says that for negative
32-bit `v` the 8-byte signed `writeInt` emits the little-endian
two's-complement encoding of `v` (low 4 bytes `v`, upper 4 bytes `0xFF`).
The code instead writes the 32-bit `-1` at byte **offset 1** (not 4), so
for `v = -2` it emits `FE FF FF FF FF 00 00 00` where sign extension
requires `FE FF FF FF FF FF FF FF`: bytes 1–3 of `v` are clobbered and
bytes 5–7 stay zero.  The write at offset 1 is plainly a slip for offset
4 (the commented-out assertion documents the intended ±2^31 domain).
-/
theorem writeInt_signed8_bug :
    writeIntBytes (-2) 8 true = [254, 255, 255, 255, 255, 0, 0, 0] ∧
    int64LE (-2) = [254, 255, 255, 255, 255, 255, 255, 255] ∧
    writeIntBytes (-2) 8 true ≠ int64LE (-2) := by decide

/-! ## C10 — LZ4 on empty input -/

/--
C10: `lz4Compress` applied to the empty byte sequence returns the empty
array — the early return fires before the size check and before the
padding byte is prepended, so the output is zero bytes, not `[0]`, and no
error is raised.
-/
theorem lz4Compress_empty : lz4Compress [] = .ok [] := rfl

/-! ## C9 — OBJ single-triangle scenario -/

/--
C9: on the S2 input (one color `#FF0000`, the unit triangle, faces
`[0,1,2]`, output name `foo`) `exportObj` produces exactly the expected
OBJ and MTL texts.
-/
theorem exportObj_single_triangle :
    exportObj [(0xFF0000, triMesh)] "foo" =
      ("mtllib foo.mtl\ng m0\nusemtl k0\nv 0 0 0\nv 1 0 0\nv 0 1 0\n" ++
        "vn 0 0 1\nvn 0 0 1\nvn 0 0 1\nf 1//1 2//2 3//3",
       "newmtl k0\nNs 163\nNi 0.001\nillum 2\nKa 0.20 0.20 0.20\n" ++
        "Kd 1 0 0\nKs 0.25 0.25 0.25") := by decide

/-! ## C3 — malformed-mesh intake -/

/--
C3 counterexample: the claim says every exporter detects a violated mesh
invariant at intake and fails.  `exportObj` contains no validation and no
failure path at all: on `badMesh` (face index 5 with only 3 positions) it
returns an ordinary successful result, so the claimed fatal error does
not happen (this already refutes the conjunction over the three
exporters; `exportGlb` and `exportUsdz` likewise contain no intake
checks).
-/
theorem exportObj_malformed_is_ok :
    (exportObjE [(0xFF0000, badMesh)] "foo").isOk = true := rfl

/--
C3 (amended): the exporters perform no mesh-invariant validation at
intake; a malformed mesh set is exported without error — `exportObj`
returns complete OBJ/MTL texts whose face line `f 1//1 2//2 6//6`
references the nonexistent vertex 6.
-/
theorem exportObj_no_intake_validation :
    (∀ (m : List (Nat × ObjMesh)) (s : String), (exportObjE m s).isOk = true) ∧
    exportObjE [(0xFF0000, badMesh)] "foo" =
      .ok ("mtllib foo.mtl\ng m0\nusemtl k0\nv 0 0 0\nv 1 0 0\nv 0 1 0\n" ++
            "vn 0 0 1\nvn 0 0 1\nvn 0 0 1\nf 1//1 2//2 6//6",
           "newmtl k0\nNs 163\nNi 0.001\nillum 2\nKa 0.20 0.20 0.20\n" ++
            "Kd 1 0 0\nKs 0.25 0.25 0.25") :=
  ⟨fun _ _ => rfl, congrArg Except.ok (by decide)⟩

/-! ## C7 — USDZ container structure -/

/--
C7: in the archive produced for any `tmp.usdc` contents, (i) the payload
begins at file offset 64 (divisible by 64), (ii) the local header's
recorded extra-field length equals `extraSize + 4` with
`extraSize = 64 − ((34 + nameLen) % 64)`, and (iii) the recorded
compressed and uncompressed sizes both equal the payload length.  Proved
for every byte sequence in the payload position, hence for every mesh
set serialized by `exportUsdz` (which calls `getUsdzFromUsdc` on the
Crate sink).
-/
theorem getUsdz_structure (contents : List Nat)
    (h : contents.length < 4294967296) :
    ((getUsdzFromUsdc contents).drop 64).take contents.length = contents ∧
    64 % 64 = 0 ∧
    readNatLE (getUsdzFromUsdc contents) 28 2 =
      (64 - ((34 + usdzName.length) % 64)) + 4 ∧
    readNatLE (getUsdzFromUsdc contents) 18 4 = contents.length ∧
    readNatLE (getUsdzFromUsdc contents) 22 4 = contents.length := by
  have hlen : (usdzPre contents.length).length = 64 := by
    simp [usdzPre, usdzName, usdzExtraSize, natLE_length]
  refine ⟨?_, by norm_num, ?_, ?_, ?_⟩
  · have e1 : (getUsdzFromUsdc contents).drop 64 =
        contents ++ usdzPost contents.length := by
      rw [getUsdzFromUsdc, List.append_assoc, ← hlen, List.drop_left]
    rw [e1, List.take_left]
  · have hsplit : getUsdzFromUsdc contents =
        ([0x50, 0x4b, 0x03, 0x04] ++ natLE 2 20 ++ List.replicate 2 0
          ++ List.replicate 2 0 ++ List.replicate 4 0 ++ List.replicate 4 0
          ++ natLE 4 contents.length ++ natLE 4 contents.length
          ++ natLE 2 usdzName.length) ++
        (natLE 2 (usdzExtraSize + 4) ++
          (usdzName ++ natLE 2 1 ++ natLE 2 usdzExtraSize
            ++ List.replicate usdzExtraSize 0 ++ contents
            ++ usdzPost contents.length)) := by
      simp [getUsdzFromUsdc, usdzPre, List.append_assoc]
    rw [hsplit, readNatLE_at _ _ 2 28 (by simp [natLE_length, usdzName]),
      readNatLE_natLE]
    decide
  · have hsplit : getUsdzFromUsdc contents =
        ([0x50, 0x4b, 0x03, 0x04] ++ natLE 2 20 ++ List.replicate 2 0
          ++ List.replicate 2 0 ++ List.replicate 4 0 ++ List.replicate 4 0) ++
        (natLE 4 contents.length ++
          (natLE 4 contents.length ++ natLE 2 usdzName.length
            ++ natLE 2 (usdzExtraSize + 4) ++ usdzName ++ natLE 2 1
            ++ natLE 2 usdzExtraSize ++ List.replicate usdzExtraSize 0
            ++ contents ++ usdzPost contents.length)) := by
      simp [getUsdzFromUsdc, usdzPre, List.append_assoc]
    rw [hsplit, readNatLE_at _ _ 4 18 (by simp [natLE_length]), readNatLE_natLE,
      show (256 : Nat) ^ 4 = 4294967296 by norm_num]
    exact Nat.mod_eq_of_lt h
  · have hsplit : getUsdzFromUsdc contents =
        ([0x50, 0x4b, 0x03, 0x04] ++ natLE 2 20 ++ List.replicate 2 0
          ++ List.replicate 2 0 ++ List.replicate 4 0 ++ List.replicate 4 0
          ++ natLE 4 contents.length) ++
        (natLE 4 contents.length ++
          (natLE 2 usdzName.length
            ++ natLE 2 (usdzExtraSize + 4) ++ usdzName ++ natLE 2 1
            ++ natLE 2 usdzExtraSize ++ List.replicate usdzExtraSize 0
            ++ contents ++ usdzPost contents.length)) := by
      simp [getUsdzFromUsdc, usdzPre, List.append_assoc]
    rw [hsplit, readNatLE_at _ _ 4 22 (by simp [natLE_length]), readNatLE_natLE,
      show (256 : Nat) ^ 4 = 4294967296 by norm_num]
    exact Nat.mod_eq_of_lt h

/-- Witness for C7 at the 3-byte contents `[9, 9, 9]`. -/
theorem getUsdz_structure_witness :
    ([9, 9, 9] : List Nat).length < 4294967296 ∧
    (((getUsdzFromUsdc [9, 9, 9]).drop 64).take ([9, 9, 9] : List Nat).length
        = [9, 9, 9] ∧
      64 % 64 = 0 ∧
      readNatLE (getUsdzFromUsdc [9, 9, 9]) 28 2 =
        (64 - ((34 + usdzName.length) % 64)) + 4 ∧
      readNatLE (getUsdzFromUsdc [9, 9, 9]) 18 4 = ([9, 9, 9] : List Nat).length ∧
      readNatLE (getUsdzFromUsdc [9, 9, 9]) 22 4 = ([9, 9, 9] : List Nat).length) :=
  ⟨by decide, getUsdz_structure [9, 9, 9] (by decide)⟩

/-! ## C1 — path-token negation -/

/--
C1 counterexample: the claim says PATHS entries carry a *negated* token
index exactly for prims (pseudo-root included) and an unnegated one for
attributes.  On the concrete tree `exRoot` the writer produces specs
`[(0,0,7),(1,2,6),(2,6,1)]` (pseudo-root, prim, attribute) and paths
`[(0,2,-1),(1,1,-1),(2,-7,-2)]`: the prim entry (spec type 6) carries
the *positive* token index `1` (its name token), and the attribute entry
(spec type 1) carries `-7`, the *negated* index of `radius` — exactly
the opposite of the claim.
-/
theorem writeUsd_prim_token_not_negated :
    (CrateFile.writeUsd exRoot).toOption.map
        (fun r => (r.2.specs, r.2.paths)) =
      some ([(0, 0, 7), (1, 2, 6), (2, 6, 1)],
            [(0, 2, -1), (1, 1, -1), (2, -7, -2)]) ∧
    ¬ ((1 : Int) < 0) ∧ ((-7 : Int) < 0) := by decide

/-! ## C2 — path-index assignment -/

/--
C2 counterexample: the claim says each node's path index is assigned
exactly once (by `updatePathIndices`) before serialization reads it and
never changed afterwards.  On `exRoot`, `updatePathIndices` gives the
attribute (id 2) path index 1 — its parent prim's index — but
`writeUsd` then *reassigns* it to 2, the attribute's spec-table slot
(`usdAtt.pathIndex = this.addSpec(...)`), so the value changes during
serialization.
-/
theorem updatePathIndices_not_final :
    (updTop exRoot) exAttr.id = 1 ∧
    (CrateFile.writeUsd exRoot).toOption.map (fun r => r.1 exAttr.id) = some 2 ∧
    (1 : Int) ≠ 2 := by decide

theorem facesBytes_length (fs : List Nat) : (facesBytes fs).length = 4 * fs.length := by
  induction fs with
  | nil => rfl
  | cons a t ih => simp [facesBytes, natLE_length] at ih ⊢; omega

theorem vec3Bytes_length (vs : List (Nat × Nat × Nat)) :
    (vec3Bytes vs).length = 12 * vs.length := by
  induction vs with
  | nil => rfl
  | cons a t ih => simp [vec3Bytes, natLE_length] at ih ⊢; omega

theorem glbByteOffset_acc (ms : List GlbMesh) (acc : Nat) :
    ms.foldl (fun acc m => acc + 4 * m.faces.length + 12 * m.positions.length
      + 12 * m.normals.length) acc
      = acc + glbByteOffset ms := by
  induction ms generalizing acc with
  | nil => simp [glbByteOffset]
  | cons m t ih =>
    simp only [glbByteOffset, List.foldl_cons]
    rw [ih, ih]
    omega

theorem glbByteOffset_cons (m : GlbMesh) (t : List GlbMesh) :
    glbByteOffset (m :: t) = 4 * m.faces.length + 12 * m.positions.length
      + 12 * m.normals.length + glbByteOffset t := by
  have h : glbByteOffset (m :: t)
      = List.foldl (fun acc m => acc + 4 * m.faces.length + 12 * m.positions.length
          + 12 * m.normals.length)
        (0 + 4 * m.faces.length + 12 * m.positions.length + 12 * m.normals.length) t := rfl
  rw [h, glbByteOffset_acc]
  omega

theorem glbBinaryBuffer_length (ms : List GlbMesh) :
    (glbBinaryBuffer ms).length = glbByteOffset ms := by
  induction ms with
  | nil => rfl
  | cons m t ih =>
    simp only [glbBinaryBuffer, List.flatMap_cons, List.length_append] at ih ⊢
    rw [ih, glbByteOffset_cons]
    simp [facesBytes_length, vec3Bytes_length]
    try omega

theorem pad4_aligned (n : Nat) : (n + pad4 n) % 4 = 0 := by
  unfold pad4; split <;> omega

/--
C8: for every mesh set (and every serialized-manifest byte sequence in
the JSON position — see the `exportGlb` section comment), the GLB buffer
starts with magic `0x46546C67` and version 2; the declared total length
equals the actual buffer length and equals 12 + JSON chunk total + BIN
chunk total; both declared chunk lengths are divisible by 4; the JSON
chunk is padded to its declared length with `0x20` bytes and the BIN
chunk with `0x00` bytes.  (Hypothesis: the total fits the 32-bit length
word.)
-/
theorem exportGlb_structure (meshes : List GlbMesh) (jsonBytes : List Nat)
    (h : 12 + (jsonBytes.length + pad4 jsonBytes.length + 8)
          + (glbByteOffset meshes + pad4 (glbByteOffset meshes) + 8) < 4294967296) :
    readNatLE (exportGlb meshes jsonBytes) 0 4 = 0x46546C67 ∧
    readNatLE (exportGlb meshes jsonBytes) 4 4 = 2 ∧
    readNatLE (exportGlb meshes jsonBytes) 8 4 = (exportGlb meshes jsonBytes).length ∧
    (exportGlb meshes jsonBytes).length
      = 12 + (8 + (jsonBytes.length + pad4 jsonBytes.length))
          + (8 + (glbByteOffset meshes + pad4 (glbByteOffset meshes))) ∧
    readNatLE (exportGlb meshes jsonBytes) 12 4
      = jsonBytes.length + pad4 jsonBytes.length ∧
    (jsonBytes.length + pad4 jsonBytes.length) % 4 = 0 ∧
    readNatLE (exportGlb meshes jsonBytes)
        (20 + (jsonBytes.length + pad4 jsonBytes.length)) 4
      = glbByteOffset meshes + pad4 (glbByteOffset meshes) ∧
    (glbByteOffset meshes + pad4 (glbByteOffset meshes)) % 4 = 0 ∧
    ((exportGlb meshes jsonBytes).drop (20 + jsonBytes.length)).take
        (pad4 jsonBytes.length)
      = List.replicate (pad4 jsonBytes.length) 0x20 ∧
    ((exportGlb meshes jsonBytes).drop
        (28 + (jsonBytes.length + pad4 jsonBytes.length) + glbByteOffset meshes)).take
        (pad4 (glbByteOffset meshes))
      = List.replicate (pad4 (glbByteOffset meshes)) 0x00 := by
  have hlen : (exportGlb meshes jsonBytes).length
      = 12 + (8 + (jsonBytes.length + pad4 jsonBytes.length))
          + (8 + (glbByteOffset meshes + pad4 (glbByteOffset meshes))) := by
    simp [exportGlb, createChunk, natLE_length, glbBinaryBuffer_length]
    omega
  refine ⟨?_, ?_, ?_, hlen, ?_, pad4_aligned _, ?_, pad4_aligned _, ?_, ?_⟩
  · have hs : exportGlb meshes jsonBytes = natLE 4 0x46546C67 ++
        (natLE 4 2
          ++ natLE 4 (12 + (jsonBytes.length + pad4 jsonBytes.length + 8)
              + (glbByteOffset meshes + pad4 (glbByteOffset meshes) + 8))
          ++ natLE 4 (jsonBytes.length + pad4 jsonBytes.length) ++ natLE 4 0x4E4F534A
          ++ jsonBytes ++ List.replicate (pad4 jsonBytes.length) 0x20
          ++ natLE 4 (glbByteOffset meshes + pad4 (glbByteOffset meshes))
          ++ natLE 4 0x004E4942 ++ glbBinaryBuffer meshes
          ++ List.replicate (pad4 (glbByteOffset meshes)) 0x00) := by
      simp [exportGlb, createChunk, List.append_assoc]
    rw [hs, readNatLE_natLE]
    norm_num
  · have hs : exportGlb meshes jsonBytes = (natLE 4 0x46546C67) ++
        (natLE 4 2
          ++ (natLE 4 (12 + (jsonBytes.length + pad4 jsonBytes.length + 8)
              + (glbByteOffset meshes + pad4 (glbByteOffset meshes) + 8))
          ++ natLE 4 (jsonBytes.length + pad4 jsonBytes.length) ++ natLE 4 0x4E4F534A
          ++ jsonBytes ++ List.replicate (pad4 jsonBytes.length) 0x20
          ++ natLE 4 (glbByteOffset meshes + pad4 (glbByteOffset meshes))
          ++ natLE 4 0x004E4942 ++ glbBinaryBuffer meshes
          ++ List.replicate (pad4 (glbByteOffset meshes)) 0x00)) := by
      simp [exportGlb, createChunk, List.append_assoc]
    rw [hs, readNatLE_at _ _ 4 4 (by simp [natLE_length]), readNatLE_natLE]
    norm_num
  · have hs : exportGlb meshes jsonBytes = (natLE 4 0x46546C67 ++ natLE 4 2) ++
        (natLE 4 (12 + (jsonBytes.length + pad4 jsonBytes.length + 8)
              + (glbByteOffset meshes + pad4 (glbByteOffset meshes) + 8))
          ++ (natLE 4 (jsonBytes.length + pad4 jsonBytes.length) ++ natLE 4 0x4E4F534A
          ++ jsonBytes ++ List.replicate (pad4 jsonBytes.length) 0x20
          ++ natLE 4 (glbByteOffset meshes + pad4 (glbByteOffset meshes))
          ++ natLE 4 0x004E4942 ++ glbBinaryBuffer meshes
          ++ List.replicate (pad4 (glbByteOffset meshes)) 0x00)) := by
      simp [exportGlb, createChunk, List.append_assoc]
    rw [hlen, hs, readNatLE_at _ _ 4 8 (by simp [natLE_length]), readNatLE_natLE,
      show (256 : Nat) ^ 4 = 4294967296 by norm_num, Nat.mod_eq_of_lt (by omega)]
    omega
  · have hs : exportGlb meshes jsonBytes = (natLE 4 0x46546C67 ++ natLE 4 2
        ++ natLE 4 (12 + (jsonBytes.length + pad4 jsonBytes.length + 8)
              + (glbByteOffset meshes + pad4 (glbByteOffset meshes) + 8))) ++
        (natLE 4 (jsonBytes.length + pad4 jsonBytes.length) ++ (natLE 4 0x4E4F534A
          ++ jsonBytes ++ List.replicate (pad4 jsonBytes.length) 0x20
          ++ natLE 4 (glbByteOffset meshes + pad4 (glbByteOffset meshes))
          ++ natLE 4 0x004E4942 ++ glbBinaryBuffer meshes
          ++ List.replicate (pad4 (glbByteOffset meshes)) 0x00)) := by
      simp [exportGlb, createChunk, List.append_assoc]
    rw [hs, readNatLE_at _ _ 4 12 (by simp [natLE_length]), readNatLE_natLE,
      show (256 : Nat) ^ 4 = 4294967296 by norm_num, Nat.mod_eq_of_lt (by omega)]
  · have hs : exportGlb meshes jsonBytes = (natLE 4 0x46546C67 ++ natLE 4 2
        ++ natLE 4 (12 + (jsonBytes.length + pad4 jsonBytes.length + 8)
              + (glbByteOffset meshes + pad4 (glbByteOffset meshes) + 8))
          ++ natLE 4 (jsonBytes.length + pad4 jsonBytes.length) ++ natLE 4 0x4E4F534A
          ++ jsonBytes ++ List.replicate (pad4 jsonBytes.length) 0x20) ++
        (natLE 4 (glbByteOffset meshes + pad4 (glbByteOffset meshes))
          ++ (natLE 4 0x004E4942 ++ glbBinaryBuffer meshes
          ++ List.replicate (pad4 (glbByteOffset meshes)) 0x00)) := by
      simp [exportGlb, createChunk, List.append_assoc]
    rw [hs, readNatLE_at _ _ 4 (20 + (jsonBytes.length + pad4 jsonBytes.length))
        (by simp [natLE_length]; omega),
      readNatLE_natLE, show (256 : Nat) ^ 4 = 4294967296 by norm_num,
      Nat.mod_eq_of_lt (by omega)]
  · have hs : exportGlb meshes jsonBytes = (natLE 4 0x46546C67 ++ natLE 4 2
        ++ natLE 4 (12 + (jsonBytes.length + pad4 jsonBytes.length + 8)
              + (glbByteOffset meshes + pad4 (glbByteOffset meshes) + 8))
          ++ natLE 4 (jsonBytes.length + pad4 jsonBytes.length) ++ natLE 4 0x4E4F534A
          ++ jsonBytes) ++
        (List.replicate (pad4 jsonBytes.length) 0x20 ++
          (natLE 4 (glbByteOffset meshes + pad4 (glbByteOffset meshes))
          ++ natLE 4 0x004E4942 ++ glbBinaryBuffer meshes
          ++ List.replicate (pad4 (glbByteOffset meshes)) 0x00)) := by
      simp [exportGlb, createChunk, List.append_assoc]
    rw [hs, List.drop_left' (by simp [natLE_length]; omega),
      List.take_left' (by simp)]
  · have hs : exportGlb meshes jsonBytes = (natLE 4 0x46546C67 ++ natLE 4 2
        ++ natLE 4 (12 + (jsonBytes.length + pad4 jsonBytes.length + 8)
              + (glbByteOffset meshes + pad4 (glbByteOffset meshes) + 8))
          ++ natLE 4 (jsonBytes.length + pad4 jsonBytes.length) ++ natLE 4 0x4E4F534A
          ++ jsonBytes ++ List.replicate (pad4 jsonBytes.length) 0x20
          ++ natLE 4 (glbByteOffset meshes + pad4 (glbByteOffset meshes))
          ++ natLE 4 0x004E4942 ++ glbBinaryBuffer meshes) ++
        List.replicate (pad4 (glbByteOffset meshes)) 0x00 := by
      simp [exportGlb, createChunk, List.append_assoc]
    rw [hs, List.drop_left' (by simp [natLE_length, glbBinaryBuffer_length]; omega)]
    simp


/-- Witness for C8 at the empty mesh set and the two-byte manifest
stand-in `[123, 125]`. -/
theorem exportGlb_structure_witness :
    (12 + (([123, 125] : List Nat).length + pad4 ([123, 125] : List Nat).length + 8)
        + (glbByteOffset [] + pad4 (glbByteOffset []) + 8) < 4294967296) ∧
    (readNatLE (exportGlb [] [123, 125]) 0 4 = 0x46546C67 ∧
     readNatLE (exportGlb [] [123, 125]) 4 4 = 2 ∧
     readNatLE (exportGlb [] [123, 125]) 8 4 = (exportGlb [] [123, 125]).length ∧
     (exportGlb [] [123, 125]).length
       = 12 + (8 + (([123, 125] : List Nat).length + pad4 ([123, 125] : List Nat).length))
           + (8 + (glbByteOffset [] + pad4 (glbByteOffset []))) ∧
     readNatLE (exportGlb [] [123, 125]) 12 4
       = ([123, 125] : List Nat).length + pad4 ([123, 125] : List Nat).length ∧
     (([123, 125] : List Nat).length + pad4 ([123, 125] : List Nat).length) % 4 = 0 ∧
     readNatLE (exportGlb [] [123, 125])
         (20 + (([123, 125] : List Nat).length + pad4 ([123, 125] : List Nat).length)) 4
       = glbByteOffset [] + pad4 (glbByteOffset []) ∧
     (glbByteOffset [] + pad4 (glbByteOffset [])) % 4 = 0 ∧
     ((exportGlb [] [123, 125]).drop (20 + ([123, 125] : List Nat).length)).take
         (pad4 ([123, 125] : List Nat).length)
       = List.replicate (pad4 ([123, 125] : List Nat).length) 0x20 ∧
     ((exportGlb [] [123, 125]).drop
         (28 + (([123, 125] : List Nat).length + pad4 ([123, 125] : List Nat).length)
           + glbByteOffset [])).take (pad4 (glbByteOffset []))
       = List.replicate (pad4 (glbByteOffset [])) 0x00) :=
  ⟨by decide, exportGlb_structure [] [123, 125] (by decide)⟩

end Molrender
namespace Molrender

set_option maxRecDepth 10000 in
theorem lor_free_add : ∀ b < 256, ∀ c < 4, ∀ s < 4, b / 4 ^ s % 4 = 0 →
    b ||| c <<< (s * 2) = b + c * 4 ^ s := by decide

theorem getSlot_arith (tbl : List Nat) (v : Nat) :
    getSlot tbl v = tbl.getD (v / 4) 0 / 4 ^ (v % 4) % 4 := by
  show (tbl.getD (v / 4) 0 >>> (v % 4 * 2)) &&& 3 = _
  rw [Nat.and_pow_two_sub_one_eq_mod _ 2, Nat.shiftRight_eq_div_pow,
    show (2 : Nat) ^ (v % 4 * 2) = 4 ^ (v % 4) by
      rw [Nat.mul_comm, Nat.pow_mul]]

theorem orSlot_length (tbl : List Nat) (v c : Nat) :
    (orSlot tbl v c).length = tbl.length := by simp [orSlot]

theorem getSlot_orSlot_self (tbl : List Nat) (v c : Nat) (hv : v / 4 < tbl.length)
    (hb : tbl.getD (v / 4) 0 < 256) (hc : c < 4) (hfree : getSlot tbl v = 0) :
    getSlot (orSlot tbl v c) v = c := by
  rw [getSlot_arith] at hfree ⊢
  unfold orSlot
  rw [show (tbl.set (v / 4) ((tbl.getD (v / 4) 0) ||| (c <<< (v % 4 * 2)))).getD (v / 4) 0
      = (tbl.getD (v / 4) 0) ||| (c <<< (v % 4 * 2)) from by
    simp [List.getD, List.getElem?_set_self, hv]]
  rw [lor_free_add _ hb _ hc _ (Nat.mod_lt _ (by norm_num)) hfree]
  have h4 : v % 4 < 4 := Nat.mod_lt _ (by norm_num)
  set s := v % 4 with hs
  interval_cases s <;> omega

theorem getSlot_orSlot_ne (tbl : List Nat) (v c j : Nat) (hne : j ≠ v)
    (hb : tbl.getD (v / 4) 0 < 256) (hc : c < 4) (hfree : getSlot tbl v = 0) :
    getSlot (orSlot tbl v c) j = getSlot tbl j := by
  by_cases hbyte : j / 4 = v / 4
  · have hslot : j % 4 ≠ v % 4 := by omega
    by_cases hv : v / 4 < tbl.length
    · rw [getSlot_arith] at hfree ⊢
      rw [getSlot_arith]
      unfold orSlot
      rw [hbyte, show (tbl.set (v / 4) ((tbl.getD (v / 4) 0) ||| (c <<< (v % 4 * 2)))).getD (v / 4) 0
          = (tbl.getD (v / 4) 0) ||| (c <<< (v % 4 * 2)) from by
        simp [List.getD, List.getElem?_set_self, hv]]
      rw [lor_free_add _ hb _ hc _ (Nat.mod_lt _ (by norm_num)) hfree]
      have h1 : j % 4 < 4 := Nat.mod_lt _ (by norm_num)
      have h2 : v % 4 < 4 := Nat.mod_lt _ (by norm_num)
      set s := v % 4 with hs
      set t := j % 4 with ht
      interval_cases s <;> interval_cases t <;> omega
    · unfold orSlot
      rw [List.set_eq_of_length_le (by omega)]
  · rw [getSlot_arith, getSlot_arith]
    unfold orSlot
    rw [show (tbl.set (v / 4) ((tbl.getD (v / 4) 0) ||| (c <<< (v % 4 * 2)))).getD (j / 4) 0
        = tbl.getD (j / 4) 0 from by
      simp [List.getD, List.getElem?_set_ne (fun h => hbyte (h.symm))]]

theorem byte_orSlot_lt (tbl : List Nat) (v c : Nat)
    (hb : ∀ b ∈ tbl, b < 256) (hbv : tbl.getD (v / 4) 0 < 256) (hc : c < 4)
    (hfree : getSlot tbl v = 0) :
    ∀ b ∈ orSlot tbl v c, b < 256 := by
  intro b hbmem
  unfold orSlot at hbmem
  rcases List.mem_or_eq_of_mem_set hbmem with h | h
  · exact hb _ h
  · subst h
    rw [getSlot_arith] at hfree
    rw [lor_free_add _ hbv _ hc _ (Nat.mod_lt _ (by norm_num)) hfree]
    have h4 : v % 4 < 4 := Nat.mod_lt _ (by norm_num)
    set s := v % 4 with hs
    interval_cases s <;> omega

end Molrender
namespace Molrender

theorem buildTableGo_spec (codes : List Nat) :
    ∀ (tbl : List Nat) (v0 : Nat),
    (∀ c ∈ codes, c < 4) →
    v0 + codes.length ≤ 4 * tbl.length →
    (∀ j, v0 ≤ j → getSlot tbl j = 0) →
    (∀ b ∈ tbl, b < 256) →
    (buildTableGo tbl v0 codes).length = tbl.length ∧
    (∀ j, j < v0 → getSlot (buildTableGo tbl v0 codes) j = getSlot tbl j) ∧
    (∀ k, (hk : k < codes.length) →
      getSlot (buildTableGo tbl v0 codes) (v0 + k) = codes.get ⟨k, hk⟩) := by
  induction codes with
  | nil =>
    intro tbl v0 _ _ _ _
    exact ⟨rfl, fun j _ => rfl, fun k hk => absurd hk (by simp)⟩
  | cons c cs ih =>
    intro tbl v0 hcodes hlen hfree hbytes
    have hv4 : v0 / 4 < tbl.length := by
      simp only [List.length_cons] at hlen
      omega
    have hbv : tbl.getD (v0 / 4) 0 < 256 := by
      rw [List.getD_eq_getElem tbl 0 hv4]
      exact hbytes _ (List.getElem_mem _)
    have hfree0 : getSlot tbl v0 = 0 := hfree v0 le_rfl
    have hc : c < 4 := hcodes c (by simp)
    have h1len : (orSlot tbl v0 c).length = tbl.length := orSlot_length tbl v0 c
    have h1free : ∀ j, v0 + 1 ≤ j → getSlot (orSlot tbl v0 c) j = 0 := by
      intro j hj
      rw [getSlot_orSlot_ne tbl v0 c j (by omega) hbv hc hfree0]
      exact hfree j (by omega)
    have h1bytes := byte_orSlot_lt tbl v0 c hbytes hbv hc hfree0
    have hstep : buildTableGo tbl v0 (c :: cs) = buildTableGo (orSlot tbl v0 c) (v0 + 1) cs := rfl
    obtain ⟨ihlen, ihpres, ihget⟩ := ih (orSlot tbl v0 c) (v0 + 1)
      (fun x hx => hcodes x (by simp [hx]))
      (by rw [h1len]; simp only [List.length_cons] at hlen; omega)
      h1free h1bytes
    refine ⟨by rw [hstep, ihlen, h1len], ?_, ?_⟩
    · intro j hj
      rw [hstep, ihpres j (by omega),
        getSlot_orSlot_ne tbl v0 c j (by omega) hbv hc hfree0]
    · intro k hk
      cases k with
      | zero =>
        rw [hstep]
        show getSlot (buildTableGo (orSlot tbl v0 c) (v0 + 1) cs) v0 = c
        rw [ihpres v0 (by omega), getSlot_orSlot_self tbl v0 c hv4 hbv hc hfree0]
      | succ k =>
        rw [hstep]
        show getSlot (buildTableGo (orSlot tbl v0 c) (v0 + 1) cs) (v0 + (k + 1))
          = cs.get ⟨k, by simpa using hk⟩
        rw [show v0 + (k + 1) = v0 + 1 + k by ring]
        exact ihget k (by simpa using hk)

end Molrender
namespace Molrender

theorem asInt32_of_bounds (a : Int) (h1 : -2147483648 ≤ a) (h2 : a < 2147483648) :
    asInt32 a = a := by
  simp only [asInt32]
  omega

theorem asInt32_mod (a : Int) : asInt32 a % 4294967296 = a % 4294967296 := by
  simp only [asInt32]
  omega

theorem asInt32_congr (a b : Int) (h : a % 4294967296 = b % 4294967296) :
    asInt32 a = asInt32 b := by
  simp only [asInt32]
  omega

theorem asInt8_roundtrip (d : Int) (h1 : -128 ≤ d) (h2 : d ≤ 127) :
    asInt8 (d % 256).toNat = d := by
  simp only [asInt8]
  omega

theorem asInt16_roundtrip (d : Int) (h1 : -32768 ≤ d) (h2 : d ≤ 32767) :
    asInt16 (d % 65536).toNat = d := by
  simp only [asInt16]
  omega

theorem readNatLE_drop (B : List Nat) (p w : Nat) :
    readNatLE B p w = readNatLE (B.drop p) 0 w := by
  induction w generalizing B p with
  | zero => rfl
  | succ w ih =>
    simp only [readNatLE]
    have hg : (B.drop p).getD 0 0 = B.getD p 0 := by
      simp [List.getD, List.getElem?_drop]
    have h1 : readNatLE (B.drop p) (0 + 1) w = readNatLE ((B.drop p).drop 1) 0 w := by
      rw [show (0 + 1 : Nat) = 1 from rfl]
      exact ih (B.drop p) 1
    rw [hg, h1, List.drop_drop, ih B (p + 1)]

theorem usdDeltas_length (prev : Int) (vs : List Int) :
    (usdDeltas prev vs).length = vs.length := by
  induction vs generalizing prev with
  | nil => rfl
  | cons x rest ih => simp [usdDeltas, ih]

theorem usdCode_lt_4 (common d : Int) : usdCode common d < 4 := by
  unfold usdCode
  split
  · norm_num
  · split
    · norm_num
    · split <;> norm_num

theorem getSlot_shift16 (hdr table payload : List Nat) (h4 : hdr.length = 4)
    (v : Nat) (hv : v / 4 < table.length) :
    getSlot (hdr ++ table ++ payload) (v + 16) = getSlot table v := by
  rw [getSlot_arith, getSlot_arith]
  have e1 : (v + 16) / 4 = 4 + v / 4 := by omega
  have e2 : (v + 16) % 4 = v % 4 := by omega
  rw [e1, e2, List.append_assoc,
    List.getD_append_right _ _ _ _ (by omega),
    show 4 + v / 4 - hdr.length = v / 4 by omega,
    List.getD_append _ _ _ _ hv]

end Molrender
namespace Molrender

theorem usdDecodeGo_succ (B : List Nat) (common : Int) (v p : Nat) (prev : Int)
    (rem : Nat) :
    usdDecodeGo B common v p prev (rem + 1)
      = (asInt32 (prev +
            (match getSlot B (v + 16) with
              | 0 => (common, p)
              | 1 => (asInt8 (B.getD p 0), p + 1)
              | 2 => (asInt16 (readNatLE B p 2), p + 2)
              | _ => (asInt32 (readNatLE B p 4), p + 4) : Int × Nat).1))
        :: usdDecodeGo B common (v + 1)
            (match getSlot B (v + 16) with
              | 0 => (common, p)
              | 1 => (asInt8 (B.getD p 0), p + 1)
              | 2 => (asInt16 (readNatLE B p 2), p + 2)
              | _ => (asInt32 (readNatLE B p 4), p + 4) : Int × Nat).2
            (asInt32 (prev +
              (match getSlot B (v + 16) with
                | 0 => (common, p)
                | 1 => (asInt8 (B.getD p 0), p + 1)
                | 2 => (asInt16 (readNatLE B p 2), p + 2)
                | _ => (asInt32 (readNatLE B p 4), p + 4) : Int × Nat).1))
            rem := rfl

end Molrender
namespace Molrender

theorem asInt32_add_wrap32 (prev x : Int) (hx1 : -2147483648 ≤ x)
    (hx2 : x < 2147483648) :
    asInt32 (prev + asInt32 (((x - prev) % 4294967296).toNat)) = x := by
  rw [asInt32_congr (prev + asInt32 (((x - prev) % 4294967296).toNat)) x
    (by have := asInt32_mod (((x - prev) % 4294967296).toNat : Int); omega)]
  exact asInt32_of_bounds x hx1 hx2

theorem usdDecodeGo_spec (commonE commonD : Int) (B : List Nat)
    (hcd : commonD % 4294967296 = commonE % 4294967296) :
    ∀ (vs : List Int) (junk : List Nat) (v0 p : Nat) (prev : Int),
    (∀ i, (hi : i < vs.length) →
      getSlot B (v0 + i + 16)
        = usdCode commonE ((usdDeltas prev vs).get
            ⟨i, by rw [usdDeltas_length]; exact hi⟩)) →
    B.drop p = (usdDeltas prev vs).flatMap (usdPayloadChunk commonE) ++ junk →
    (-2147483648 ≤ prev ∧ prev < 2147483648) →
    (∀ x ∈ vs, -2147483648 ≤ x ∧ x < 2147483648) →
    usdDecodeGo B commonD v0 p prev vs.length = vs := by
  intro vs
  induction vs with
  | nil => intro junk v0 p prev _ _ _ _; rfl
  | cons x rest ih =>
    intro junk v0 p prev hslot hdrop hprev hvs
    have hx := hvs x (by simp)
    have hd0 : getSlot B (v0 + 16) = usdCode commonE (x - prev) := by
      have h := hslot 0 (by simp)
      simpa [usdDeltas] using h
    have hdelta : usdDeltas prev (x :: rest)
        = (x - prev) :: usdDeltas x rest := rfl
    have hflat : (usdDeltas prev (x :: rest)).flatMap (usdPayloadChunk commonE)
        = usdPayloadChunk commonE (x - prev)
          ++ (usdDeltas x rest).flatMap (usdPayloadChunk commonE) := by
      rw [hdelta]; simp
    -- shared facts for the recursive call
    have hslot' : ∀ i, (hi : i < rest.length) →
        getSlot B (v0 + 1 + i + 16)
          = usdCode commonE ((usdDeltas x rest).get
              ⟨i, by rw [usdDeltas_length]; exact hi⟩) := by
      intro i hi
      have h := hslot (i + 1) (by simpa using Nat.succ_lt_succ hi)
      rw [show v0 + 1 + i + 16 = v0 + (i + 1) + 16 by ring]
      exact h
    have hxb : -2147483648 ≤ x ∧ x < 2147483648 := hx
    have hrestb : ∀ y ∈ rest, -2147483648 ≤ y ∧ y < 2147483648 :=
      fun y hy => hvs y (by simp [hy])
    show usdDecodeGo B commonD v0 p prev (rest.length + 1) = x :: rest
    by_cases hc0 : x - prev = commonE
    · have hcode : usdCode commonE (x - prev) = 0 := by
        unfold usdCode; rw [if_pos hc0]
      have hchunk : usdPayloadChunk commonE (x - prev) = [] := by
        simp [usdPayloadChunk, hcode]
      have hval : asInt32 (prev + commonD) = x := by
        rw [asInt32_congr (prev + commonD) x (by omega)]
        exact asInt32_of_bounds x hxb.1 hxb.2
      rw [usdDecodeGo_succ, hd0, hcode]
      simp only []
      rw [hval]
      congr 1
      exact ih junk (v0 + 1) p x hslot'
        (by rw [hdrop, hflat, hchunk]; simp) hxb hrestb
    · by_cases hc1 : x - prev ≤ 127 ∧ -128 ≤ x - prev
      · have hcode : usdCode commonE (x - prev) = 1 := by
          unfold usdCode; rw [if_neg hc0, if_pos hc1]
        have hchunk : usdPayloadChunk commonE (x - prev)
            = [((x - prev) % 256).toNat] := by
          simp [usdPayloadChunk, hcode]
        have hread : B.getD p 0 = ((x - prev) % 256).toNat := by
          have h : (B.drop p).getD 0 0 = ((x - prev) % 256).toNat := by
            rw [hdrop, hflat, hchunk]; rfl
          rw [← h]; simp [List.getD, List.getElem?_drop]
        have hval : asInt32 (prev + asInt8 (B.getD p 0)) = x := by
          rw [hread, asInt8_roundtrip _ hc1.2 hc1.1,
            show prev + (x - prev) = x by ring]
          exact asInt32_of_bounds x hxb.1 hxb.2
        rw [usdDecodeGo_succ, hd0, hcode]
        simp only []
        rw [hval]
        congr 1
        refine ih junk (v0 + 1) (p + 1) x hslot' ?_ hxb hrestb
        have : B.drop (p + 1) = (B.drop p).drop 1 := by
          rw [List.drop_drop]
        rw [this, hdrop, hflat, hchunk]
        rfl
      · by_cases hc2 : x - prev ≤ 32767 ∧ -32768 ≤ x - prev
        · have hcode : usdCode commonE (x - prev) = 2 := by
            unfold usdCode; rw [if_neg hc0, if_neg hc1, if_pos hc2]
          have hchunk : usdPayloadChunk commonE (x - prev)
              = natLE 2 ((x - prev) % 65536).toNat := by
            simp [usdPayloadChunk, hcode]
          have hm : ((x - prev) % 65536).toNat < 65536 := by omega
          have hread : readNatLE B p 2 = ((x - prev) % 65536).toNat := by
            rw [readNatLE_drop, hdrop, hflat, hchunk, List.append_assoc,
              readNatLE_natLE]
            omega
          have hval : asInt32 (prev + asInt16 (readNatLE B p 2)) = x := by
            rw [hread, asInt16_roundtrip _ hc2.2 hc2.1,
              show prev + (x - prev) = x by ring]
            exact asInt32_of_bounds x hxb.1 hxb.2
          rw [usdDecodeGo_succ, hd0, hcode]
          simp only []
          rw [hval]
          congr 1
          refine ih junk (v0 + 1) (p + 2) x hslot' ?_ hxb hrestb
          have h2 : B.drop (p + 2) = (B.drop p).drop 2 := by
            rw [List.drop_drop]
          rw [h2, hdrop, hflat, hchunk]
          have hl : (natLE 2 ((x - prev) % 65536).toNat).length = 2 := natLE_length _ _
          rw [List.append_assoc, List.drop_left' hl]
        · have hcode : usdCode commonE (x - prev) = 3 := by
            unfold usdCode; rw [if_neg hc0, if_neg hc1, if_neg hc2]
          have hchunk : usdPayloadChunk commonE (x - prev)
              = natLE 4 ((x - prev) % 4294967296).toNat := by
            simp [usdPayloadChunk, hcode]
          have hread : readNatLE B p 4 = ((x - prev) % 4294967296).toNat := by
            rw [readNatLE_drop, hdrop, hflat, hchunk, List.append_assoc,
              readNatLE_natLE]
            omega
          have hval : asInt32 (prev + asInt32 (readNatLE B p 4)) = x := by
            rw [hread]
            exact asInt32_add_wrap32 prev x hxb.1 hxb.2
          rw [usdDecodeGo_succ, hd0, hcode]
          simp only []
          rw [hval]
          congr 1
          refine ih junk (v0 + 1) (p + 4) x hslot' ?_ hxb hrestb
          have h2 : B.drop (p + 4) = (B.drop p).drop 4 := by
            rw [List.drop_drop]
          rw [h2, hdrop, hflat, hchunk]
          have hl : (natLE 4 ((x - prev) % 4294967296).toNat).length = 4 := natLE_length _ _
          rw [List.append_assoc, List.drop_left' hl]

end Molrender
namespace Molrender

theorem usdInt32Compress_decomp (vs : List Int) (hne : vs.length ≠ 0) :
    usdInt32Compress vs =
      natLE 4 ((usdCommon (usdTally (usdDeltas 0 vs)) % 4294967296).toNat)
        ++ buildTableGo (List.replicate ((vs.length * 2 + 7) / 8) 0) 0
            (usdCodes (usdCommon (usdTally (usdDeltas 0 vs))) (usdDeltas 0 vs))
        ++ usdPayload (usdCommon (usdTally (usdDeltas 0 vs))) (usdDeltas 0 vs) := by
  simp only [usdInt32Compress, if_neg hne]

theorem usdInt32_roundtrip_main (vs : List Int) (hne : vs.length ≠ 0)
    (h : ∀ v ∈ vs, -2147483648 ≤ v ∧ v < 2147483648) :
    usdInt32Decode vs.length (usdInt32Compress vs) = vs := by
  have hdecomp := usdInt32Compress_decomp vs hne
  have hcodes_len : (usdCodes (usdCommon (usdTally (usdDeltas 0 vs)))
      (usdDeltas 0 vs)).length = vs.length := by
    simp [usdCodes, usdDeltas_length]
  have hcodes_lt : ∀ c ∈ usdCodes (usdCommon (usdTally (usdDeltas 0 vs)))
      (usdDeltas 0 vs), c < 4 := by
    intro c hc
    simp only [usdCodes, List.mem_map] at hc
    obtain ⟨d, _, rfl⟩ := hc
    exact usdCode_lt_4 _ _
  have hfree : ∀ j, 0 ≤ j →
      getSlot (List.replicate ((vs.length * 2 + 7) / 8) 0) j = 0 := by
    intro j _
    rw [getSlot_arith]
    have hz : (List.replicate ((vs.length * 2 + 7) / 8) (0 : Nat)).getD (j / 4) 0 = 0 := by
      rcases Nat.lt_or_ge (j / 4) ((vs.length * 2 + 7) / 8) with hlt | hge
      · rw [List.getD_eq_getElem _ _ (by simpa using hlt)]
        simp
      · rw [List.getD_eq_default _ _ (by simpa using hge)]
    rw [hz]
    simp
  have hbytes : ∀ b ∈ List.replicate ((vs.length * 2 + 7) / 8) (0 : Nat), b < 256 := by
    intro b hb
    rw [List.eq_of_mem_replicate hb]
    norm_num
  obtain ⟨htlen, _, htget⟩ := buildTableGo_spec
    (usdCodes (usdCommon (usdTally (usdDeltas 0 vs))) (usdDeltas 0 vs))
    (List.replicate ((vs.length * 2 + 7) / 8) 0) 0
    hcodes_lt
    (by rw [hcodes_len]; simp; omega)
    hfree hbytes
  have hcN : ((usdCommon (usdTally (usdDeltas 0 vs)) % 4294967296).toNat) < 4294967296 := by
    omega
  have hread0 : readNatLE (usdInt32Compress vs) 0 4
      = (usdCommon (usdTally (usdDeltas 0 vs)) % 4294967296).toNat := by
    rw [hdecomp, List.append_assoc, readNatLE_natLE]
    rw [show (256 : Nat) ^ 4 = 4294967296 by norm_num]
    omega
  have hcd : asInt32 ((usdCommon (usdTally (usdDeltas 0 vs)) % 4294967296).toNat) % 4294967296
      = usdCommon (usdTally (usdDeltas 0 vs)) % 4294967296 := by
    have h1 := asInt32_mod (((usdCommon (usdTally (usdDeltas 0 vs)) % 4294967296).toNat : Int))
    omega
  have hslot : ∀ i, (hi : i < vs.length) →
      getSlot (usdInt32Compress vs) (0 + i + 16)
        = usdCode (usdCommon (usdTally (usdDeltas 0 vs)))
            ((usdDeltas 0 vs).get ⟨i, by rw [usdDeltas_length]; exact hi⟩) := by
    intro i hi
    rw [show (0 + i + 16) = i + 16 by ring, hdecomp,
      getSlot_shift16 _ _ _ (natLE_length _ _) i
        (by rw [htlen]; simp; omega)]
    have hg := htget i (by rw [hcodes_len]; exact hi)
    rw [show (0 + i) = i by ring] at hg
    rw [hg]
    simp [usdCodes]
  have hdrop : (usdInt32Compress vs).drop (4 + (vs.length * 2 + 7) / 8)
      = (usdDeltas 0 vs).flatMap
          (usdPayloadChunk (usdCommon (usdTally (usdDeltas 0 vs)))) ++ [] := by
    rw [hdecomp, List.drop_left'
      (by rw [List.length_append, natLE_length, htlen]; simp), List.append_nil]
    rfl
  have hfinal := usdDecodeGo_spec (usdCommon (usdTally (usdDeltas 0 vs)))
    (asInt32 ((usdCommon (usdTally (usdDeltas 0 vs)) % 4294967296).toNat))
    (usdInt32Compress vs) hcd vs [] 0 (4 + (vs.length * 2 + 7) / 8) 0
    hslot hdrop (by norm_num) h
  rw [usdInt32Decode, if_neg hne, hread0]
  exact hfinal

end Molrender
namespace Molrender

/-- C6: USD integer coding round trip. For every sequence of 32-bit integers
(each in [-2^31, 2^31)), decoding the output of usdInt32Compress — reading the
4-byte little-endian common value, then the 2-bits-per-element code table at
byte offset 4 with element v addressed at bit position (v+16), then the
variable-width 8/16/32-bit signed little-endian delta payload in order,
accumulating deltas from 0 with 32-bit wrap — yields the original sequence;
and the empty input encodes to the empty byte string. -/
theorem usdInt32_roundtrip (values : List Int)
    (h : ∀ v ∈ values, -2147483648 ≤ v ∧ v < 2147483648) :
    usdInt32Decode values.length (usdInt32Compress values) = values ∧
      usdInt32Compress [] = [] := by
  refine ⟨?_, rfl⟩
  rcases values with _ | ⟨x, rest⟩
  · rfl
  · exact usdInt32_roundtrip_main (x :: rest) (by simp) h

theorem usdInt32_roundtrip_witness :
    usdInt32Decode 5 (usdInt32Compress [5, 10, 15, 20, 1000000]) = [5, 10, 15, 20, 1000000] ∧
      usdInt32Compress [] = [] :=
  usdInt32_roundtrip [5, 10, 15, 20, 1000000] (by decide)

end Molrender
namespace Molrender
namespace CrateFile

/-! ### `tables` preservation through the field writers -/

theorem tables_wr (n : Nat) (st : CrateState) : tables (wr n st) = tables st := rfl

theorem tables_setFramesRef (st : CrateState) (r : Int) :
    tables { st with framesRef := r } = tables st := rfl

theorem tables_getTokenIndex (s : String) (st : CrateState) :
    tables (getTokenIndex s st).2 = tables st := by
  unfold getTokenIndex
  split <;> rfl

theorem tables_getStringIndex (s : String) (st : CrateState) :
    tables (getStringIndex s st).2 = tables st := by
  simp only [getStringIndex]
  split <;> exact tables_getTokenIndex s st

theorem tables_addFieldSet (fset : List Int) (st : CrateState) :
    tables (addFieldSet fset st).2 = tables st := rfl

theorem tables_addFieldItem (field vType : Nat) (a i c : Bool) (payload : Int)
    (st : CrateState) : tables (addFieldItem field vType a i c payload st).2 = tables st := by
  simp only [addFieldItem]
  split <;> rfl

theorem tables_internTokens (l : List String) (st : CrateState) :
    tables (internTokens l st).2 = tables st := by
  induction l generalizing st with
  | nil => rfl
  | cons s rest ih =>
    simp only [internTokens]
    rw [ih, tables_getTokenIndex]

theorem tables_addWrittenData (data : List Int) (ref : Nat) (st : CrateState) :
    tables (addWrittenData data ref st) = tables st := rfl

theorem tables_addFieldTokens (field : String) (data : List String) (st : CrateState) :
    tables (addFieldTokens field data st).2 = tables st := by
  simp only [addFieldTokens]
  rw [tables_addFieldItem, tables_wr, tables_internTokens, tables_getTokenIndex]

theorem tables_addFieldToken (field data : String) (st : CrateState) :
    tables (addFieldToken field data st).2 = tables st := by
  simp only [addFieldToken]
  rw [tables_addFieldItem, tables_getTokenIndex, tables_getTokenIndex]

theorem tables_addFieldTokenVector (field : String) (tokens : List String)
    (st : CrateState) : tables (addFieldTokenVector field tokens st).2 = tables st := by
  simp only [addFieldTokenVector]
  split
  · rw [tables_addFieldItem, tables_wr, tables_addWrittenData, tables_internTokens,
      tables_getTokenIndex]
  · rw [tables_addFieldItem, tables_internTokens, tables_getTokenIndex]

theorem tables_addFieldPathListOp (field : String) (pathIndex : Int) (st : CrateState) :
    tables (addFieldPathListOp field pathIndex st).2 = tables st := by
  simp only [addFieldPathListOp]
  rw [tables_addFieldItem, tables_wr, tables_getTokenIndex]

theorem tables_addFieldPathVector (field : String) (pathIndex : Int) (st : CrateState) :
    tables (addFieldPathVector field pathIndex st).2 = tables st := by
  simp only [addFieldPathVector]
  rw [tables_addFieldItem, tables_wr, tables_getTokenIndex]

theorem tables_addFieldSpecifier (field : String) (spec : Nat) (st : CrateState) :
    tables (addFieldSpecifier field spec st).2 = tables st := by
  simp only [addFieldSpecifier]
  rw [tables_addFieldItem, tables_getTokenIndex]

theorem tables_addFieldInts (field : String) (data : List Int) (st : CrateState)
    (r : Nat × CrateState) (h : addFieldInts field data st = .ok r) :
    tables r.2 = tables st := by
  simp only [addFieldInts] at h
  split at h
  · split at h
    · split at h
      · exact Except.noConfusion h
      · injection h with h
        subst h
        rw [tables_addFieldItem, tables_wr, tables_wr, tables_addWrittenData,
          tables_getTokenIndex]
    · injection h with h
      subst h
      rw [tables_addFieldItem, tables_wr, tables_wr, tables_addWrittenData,
        tables_getTokenIndex]
  · injection h with h
    subst h
    rw [tables_addFieldItem, tables_getTokenIndex]

theorem tables_addFieldFloat (field : String) (bits : Int) (st : CrateState) :
    tables (addFieldFloat field bits st).2 = tables st := by
  simp only [addFieldFloat]
  rw [tables_addFieldItem, tables_getTokenIndex]

theorem tables_addFieldVectors (field : String) (floats : List Nat) (st : CrateState) :
    tables (addFieldVectors field floats st).2 = tables st := by
  simp only [addFieldVectors]
  rw [tables_addFieldItem, tables_wr, tables_getTokenIndex]

theorem tables_addFieldVector (field : String) (floats : List Nat) (st : CrateState) :
    tables (addFieldVector field floats st).2 = tables st := by
  simp only [addFieldVector]
  rw [tables_addFieldItem, tables_wr, tables_getTokenIndex]

theorem tables_addFieldBool (field : String) (data : Bool) (st : CrateState) :
    tables (addFieldBool field data st).2 = tables st := by
  simp only [addFieldBool]
  rw [tables_addFieldItem, tables_getTokenIndex]

theorem tables_addFieldVariability (field : String) (data : Bool) (st : CrateState) :
    tables (addFieldVariability field data st).2 = tables st := by
  simp only [addFieldVariability]
  rw [tables_addFieldItem, tables_getTokenIndex]

theorem tables_dictEntryWrites (data : List (String × String)) (st : CrateState) :
    tables (dictEntryWrites data st) = tables st := by
  induction data generalizing st with
  | nil => rfl
  | cons kv rest ih =>
    rcases kv with ⟨k, v⟩
    simp only [dictEntryWrites]
    rw [ih]
    simp only [tables_wr, tables_getStringIndex]

theorem tables_addFieldDictionary (field : String) (data : List (String × String))
    (st : CrateState) : tables (addFieldDictionary field data st).2 = tables st := by
  simp only [addFieldDictionary]
  rw [tables_addFieldItem, tables_dictEntryWrites, tables_wr, tables_getTokenIndex]

theorem tables_frameFold (vType : Nat) (data : List (Nat × AttValueM)) (st : CrateState) :
    tables (data.foldl (fun st fv => wr (frameValueBytes vType fv.2) st) st) = tables st := by
  induction data generalizing st with
  | nil => rfl
  | cons fv rest ih =>
    simp only [List.foldl]
    rw [ih, tables_wr]

theorem tables_addFieldTimeSamples (field : String) (data : List (Nat × AttValueM))
    (vType : Nat) (st : CrateState) :
    tables (addFieldTimeSamples field data vType st).2 = tables st := by
  simp only [addFieldTimeSamples]
  rw [tables_addFieldItem, tables_wr, tables_wr]
  split
  · rw [tables_wr, tables_frameFold, tables_getTokenIndex]
  · rw [tables_setFramesRef, tables_wr, tables_frameFold, tables_getTokenIndex]

set_option maxHeartbeats 2000000 in
theorem tables_addField (field : String) (att : UsdAttributeM) (st : CrateState)
    (r : Nat × CrateState) (h : addField field att st = .ok r) :
    tables r.2 = tables st := by
  unfold addField at h
  repeat' split at h
  all_goals
    solve
      | (injection h with h
         subst h
         solve
           | rw [tables_addFieldTokens]
           | rw [tables_addFieldToken]
           | rw [tables_addFieldSpecifier]
           | rw [tables_addFieldFloat]
           | rw [tables_addFieldVectors]
           | rw [tables_addFieldVector]
           | rw [tables_addFieldBool]
           | rw [tables_addFieldVariability]
           | rw [tables_addFieldDictionary])
      | injection h
      | exact tables_addFieldInts _ _ _ _ h

theorem tables_addQualifierFields (qs : List String) (st : CrateState) :
    tables (addQualifierFields qs st).2 = tables st := by
  induction qs generalizing st with
  | nil => rfl
  | cons q rest ih =>
    simp only [addQualifierFields]
    split
    · rw [ih, tables_addFieldVariability]
    · split
      · rw [ih, tables_addFieldBool]
      · exact ih st

theorem tables_addAttMetadataFields (l : List (String × String)) (st : CrateState) :
    tables (addAttMetadataFields l st).2 = tables st := by
  induction l generalizing st with
  | nil => rfl
  | cons kv rest ih =>
    rcases kv with ⟨k, v⟩
    simp only [addAttMetadataFields]
    rw [ih, tables_addFieldToken]

set_option maxHeartbeats 2000000 in
theorem tables_addPrimMetadataFields (env : Env) (l : List (String × MetaValueM))
    (st : CrateState) (r : List Int × CrateState)
    (h : addPrimMetadataFields env l st = .ok r) : tables r.2 = tables st := by
  induction l generalizing st r with
  | nil =>
    simp only [addPrimMetadataFields] at h
    injection h with h
    subst h
    rfl
  | cons kv rest ih =>
    rcases kv with ⟨name, value⟩
    simp only [addPrimMetadataFields] at h
    split at h
    · exact Except.noConfusion h
    · rename_i r1 heq
      split at h
      · exact Except.noConfusion h
      · rename_i r2 heq2
        injection h with h
        subst h
        rw [show ((r1.1 : Int) :: r2.1, r2.2).2 = r2.2 from rfl, ih _ _ heq2]
        have : tables r1.2 = tables st := by
          repeat' split at heq
          all_goals
            solve
              | (injection heq with heq
                 subst heq
                 solve
                   | rw [tables_addFieldPathListOp]
                   | rw [tables_addFieldDictionary]
                   | rw [tables_addFieldToken]
                   | rw [tables_addFieldFloat]
                   | rw [tables_addFieldBool])
              | injection heq
        exact this

theorem tables_addRootMetadataFields (l : List (String × MetaValueM)) (st : CrateState) :
    tables (addRootMetadataFields l st).2 = tables st := by
  induction l generalizing st with
  | nil => rfl
  | cons kv rest ih =>
    rcases kv with ⟨name, value⟩
    simp only [addRootMetadataFields]
    cases value
    · rw [ih, tables_addFieldToken]
    · rw [ih, tables_addFieldFloat]
    · rw [ih, tables_addFieldBool]
    · exact ih st
    · exact ih st

end CrateFile
end Molrender
namespace Molrender
namespace CrateFile

/-! ### The sign invariant through the spec/path writers -/

theorem signInv_of_tables_eq (st st' : CrateState) (h : tables st' = tables st)
    (hi : crateSignInv st) : crateSignInv st' := by
  have h1 : st'.specs = st.specs := congrArg Prod.fst h
  have h2 : st'.paths = st.paths := congrArg Prod.snd h
  unfold crateSignInv at hi ⊢
  rw [h1, h2]
  exact hi

theorem specs_addPath (p : Int) (tok : Nat) (j : Int) (b : Bool) (st : CrateState) :
    (addPath p tok j b st).specs = st.specs := rfl

theorem paths_addPath (p : Int) (tok : Nat) (j : Int) (b : Bool) (st : CrateState) :
    (addPath p tok j b st).paths =
      st.paths ++ [(p, if b then -(tok : Int) else (tok : Int), j)] := rfl

theorem specs_addSpec (f t : Nat) (st : CrateState) :
    (addSpec f t st).2.specs = st.specs ++ [(st.specs.length, f, t)] := rfl

theorem paths_addSpec (f t : Nat) (st : CrateState) :
    (addSpec f t st).2.paths = st.paths := rfl

theorem specs_getTokenIndex (s : String) (st : CrateState) :
    (getTokenIndex s st).2.specs = st.specs :=
  congrArg Prod.fst (tables_getTokenIndex s st)

theorem paths_getTokenIndex (s : String) (st : CrateState) :
    (getTokenIndex s st).2.paths = st.paths :=
  congrArg Prod.snd (tables_getTokenIndex s st)

/-- The common `addSpec` → `getTokenIndex` → `addPath` tail of every
spec/path writer preserves the sign invariant, provided the `prim` flag
agrees with the spec type the way the source pairs them. -/
theorem signInv_specPathStep (st : CrateState) (fset sType : Nat) (nm : String)
    (p j : Int) (prim : Bool)
    (hmatch : (prim = false ∧ (sType = specTypePrim ∨ sType = specTypePseudoRoot)) ∨
      (prim = true ∧ (sType = specTypeAttribute ∨ sType = specTypeRelationship)))
    (hi : crateSignInv st) :
    crateSignInv (addPath p (getTokenIndex nm (addSpec fset sType st).2).1 j prim
      (getTokenIndex nm (addSpec fset sType st).2).2) := by
  unfold crateSignInv
  rw [specs_addPath, paths_addPath, specs_getTokenIndex, paths_getTokenIndex,
    specs_addSpec, paths_addSpec]
  refine List.rel_append hi (List.Forall₂.cons ?_ List.Forall₂.nil)
  unfold pathSignPair
  simp only [specTypeAttribute, specTypePrim, specTypePseudoRoot, specTypeRelationship]
  rcases hmatch with ⟨hb, hT⟩ | ⟨hb, hT⟩ <;> subst hb <;>
    simp only [specTypeAttribute, specTypePrim, specTypePseudoRoot,
      specTypeRelationship] at hT <;>
    constructor <;> intro hC <;> simp only [if_pos, if_neg, Bool.false_eq_true,
      if_false, if_true]
  · omega
  · rcases hT with hT | hT <;> rcases hC with hC | hC <;> omega
  · rcases hT with hT | hT <;> rcases hC with hC | hC <;> omega
  · omega

theorem signInv_writeUsdConnection (parent : UsdPrimM) (att : UsdAttributeM)
    (targetId : Nat) (env : Env) (st : CrateState) (hi : crateSignInv st) :
    crateSignInv (writeUsdConnection parent att targetId env st).2 := by
  simp only [writeUsdConnection]
  exact signInv_specPathStep _ _ _ _ _ _ _ (Or.inr ⟨rfl, Or.inl rfl⟩)
    (signInv_of_tables_eq _ _
      (by rw [tables_addFieldSet, tables_addFieldPathVector, tables_addFieldPathListOp,
        tables_addQualifierFields, tables_addFieldToken]) hi)

theorem signInv_writeUsdRelationship (parent : UsdPrimM) (att : UsdAttributeM)
    (targetId : Nat) (env : Env) (st : CrateState) (hi : crateSignInv st) :
    crateSignInv (writeUsdRelationship parent att targetId env st).2 := by
  simp only [writeUsdRelationship]
  exact signInv_specPathStep _ _ _ _ _ _ _ (Or.inr ⟨rfl, Or.inr rfl⟩)
    (signInv_of_tables_eq _ _
      (by rw [tables_addFieldSet, tables_addFieldPathVector, tables_addFieldPathListOp,
        tables_addFieldVariability]) hi)

set_option maxHeartbeats 1000000 in
theorem signInv_writeUsdAttribute (parent : UsdPrimM) (att : UsdAttributeM)
    (env : Env) (st : CrateState) (r : Env × CrateState)
    (h : writeUsdAttribute parent att env st = .ok r) (hi : crateSignInv st) :
    crateSignInv r.2 := by
  simp only [writeUsdAttribute] at h
  split at h
  · exact Except.noConfusion h
  · rename_i fset1 st1 heq
    injection h with h
    subst h
    have hst1 : tables st1 = tables st := by
      split at heq
      · split at heq
        · exact Except.noConfusion heq
        · rename_i r1 heq2
          injection heq with heq
          have h5 : r1.2 = st1 := congrArg Prod.snd heq
          rw [← h5, tables_addField _ _ _ _ heq2, tables_addAttMetadataFields,
            tables_addQualifierFields, tables_addFieldToken]
      · injection heq with heq
        have h5 : (addAttMetadataFields att.metadata
            (addQualifierFields att.qualifiers
              (addFieldToken "typeName" att.valueTypeStr st).2).2).2 = st1 :=
          congrArg Prod.snd heq
        rw [← h5, tables_addAttMetadataFields, tables_addQualifierFields,
          tables_addFieldToken]
    split
    · exact signInv_specPathStep _ _ _ _ _ _ _ (Or.inr ⟨rfl, Or.inl rfl⟩)
        (signInv_of_tables_eq _ _
          (by rw [tables_addFieldSet, tables_addFieldTimeSamples, hst1]) hi)
    · exact signInv_specPathStep _ _ _ _ _ _ _ (Or.inr ⟨rfl, Or.inl rfl⟩)
        (signInv_of_tables_eq _ _ (by rw [tables_addFieldSet, hst1]) hi)

theorem signInv_writeUsdAttList (parent : UsdPrimM) (atts : List UsdAttributeM) :
    ∀ env st r, writeUsdAttList parent atts env st = .ok r → crateSignInv st →
      crateSignInv r.2 := by
  induction atts with
  | nil =>
    intro env st r h hi
    simp only [writeUsdAttList] at h
    injection h with h
    subst h
    exact hi
  | cons a rest ih =>
    intro env st r h hi
    simp only [writeUsdAttList] at h
    split at h
    · exact Except.noConfusion h
    · rename_i r1 heq
      refine ih _ _ _ h ?_
      split at heq
      · injection heq with heq
        subst heq
        exact signInv_writeUsdConnection _ _ _ _ _ hi
      · injection heq with heq
        subst heq
        exact signInv_writeUsdRelationship _ _ _ _ _ hi
      · exact signInv_writeUsdAttribute _ _ _ _ _ heq hi

end CrateFile
end Molrender
namespace Molrender
namespace CrateFile

mutual
theorem signInv_writeUsdPrim (parent : Option UsdPrimM) (p : UsdPrimM)
    (env : Env) (st : CrateState) (r : Env × CrateState)
    (h : writeUsdPrim parent p env st = .ok r) (hi : crateSignInv st) :
    crateSignInv r.2 := by
  match p with
  | .mk selfId selfName selfClass selfMeta children attributes =>
    simp only [writeUsdPrim] at h
    split at h
    · exact Except.noConfusion h
    · rename_i rm heq
      split at h
      · exact Except.noConfusion h
      · rename_i r1 heq1
        have hrm : tables rm.2 = tables st := by
          rw [tables_addPrimMetadataFields _ _ _ _ heq, tables_addFieldToken,
            tables_addFieldSpecifier]
        refine signInv_writeUsdAttList _ _ _ _ _ h ?_
        refine signInv_writeUsdPrimList _ children _ _ _ heq1 ?_
        refine signInv_specPathStep _ _ _ _ _ _ _ (Or.inl ⟨rfl, Or.inl rfl⟩)
          (signInv_of_tables_eq _ _ ?_ hi)
        rw [tables_addFieldSet]
        split <;> split
        all_goals
          first
            | exact hrm
            | exact (tables_addFieldTokenVector _ _ _).trans hrm
            | exact (tables_addFieldTokenVector _ _ _).trans
                ((tables_addFieldTokenVector _ _ _).trans hrm)
  termination_by structural p

theorem signInv_writeUsdPrimList (parent : UsdPrimM) (ps : List UsdPrimM)
    (env : Env) (st : CrateState) (r : Env × CrateState)
    (h : writeUsdPrimList parent ps env st = .ok r) (hi : crateSignInv st) :
    crateSignInv r.2 := by
  match ps with
  | [] =>
    simp only [writeUsdPrimList] at h
    injection h with h
    subst h
    exact hi
  | c :: rest =>
    simp only [writeUsdPrimList] at h
    split at h
    · exact Except.noConfusion h
    · rename_i r1 heq
      exact signInv_writeUsdPrimList parent rest _ _ _ h
        (signInv_writeUsdPrim (some parent) c _ _ _ heq hi)
  termination_by structural ps
end

theorem signInv_writeUsd (root : UsdPrimM) (r : Env × CrateState)
    (h : writeUsd root = .ok r) : crateSignInv r.2 := by
  simp only [writeUsd] at h
  refine signInv_writeUsdPrimList _ _ _ _ _ h ?_
  refine signInv_specPathStep _ _ _ _ _ _ _ (Or.inl ⟨rfl, Or.inr rfl⟩)
    (signInv_of_tables_eq (wr 88 initCrate) _ ?_ List.Forall₂.nil)
  rw [tables_addFieldSet]
  split
  · exact tables_addRootMetadataFields _ _
  · exact (tables_addFieldTokenVector _ _ _).trans (tables_addRootMetadataFields _ _)

end CrateFile
end Molrender
namespace Molrender

/--
C1 (corrected): in every scene tree the crate writer serializes, the
PATHS-table token index is negated exactly for attribute, connection and
relationship entries, while prim and pseudo-root entries keep the
unnegated (nonnegative) token index — the opposite pairing of the
claim.  Stated over the aligned `specs`/`paths` tables: every aligned
pair satisfies the sign discipline `pathSignPair`.
-/
theorem writeUsd_path_token_signs (root : UsdPrimM)
    (sp : List (Nat × Nat × Nat)) (pa : List (Int × Int × Int))
    (h : (CrateFile.writeUsd root).toOption.map (fun r => (r.2.specs, r.2.paths))
      = some (sp, pa)) :
    List.Forall₂ pathSignPair sp pa := by
  cases hw : CrateFile.writeUsd root with
  | error e =>
    rw [hw] at h
    simp only [Except.toOption, Option.map] at h
    exact Option.noConfusion h
  | ok r =>
    rw [hw] at h
    simp only [Except.toOption, Option.map] at h
    injection h with h
    have h1 : r.2.specs = sp := congrArg Prod.fst h
    have h2 : r.2.paths = pa := congrArg Prod.snd h
    have hinv := CrateFile.signInv_writeUsd root r hw
    unfold crateSignInv at hinv
    rw [← h1, ← h2]
    exact hinv

theorem writeUsd_path_token_signs_witness :
    List.Forall₂ pathSignPair [(0, 0, 7), (1, 2, 6), (2, 6, 1)]
      [(0, 2, -1), (1, 1, -1), (2, -7, -2)] :=
  writeUsd_path_token_signs exRoot
    [(0, 0, 7), (1, 2, 6), (2, 6, 1)]
    [(0, 2, -1), (1, 1, -1), (2, -7, -2)] (by decide)

end Molrender
namespace Molrender

/-! ### Association-list and position-list helpers (claim C2) -/

theorem lookup_eq_none_of_not_mem (l : List (Nat × Int)) (k : Nat)
    (h : k ∉ l.map Prod.fst) : l.lookup k = none := by
  induction l with
  | nil => rfl
  | cons kv rest ih =>
    rcases kv with ⟨a, v⟩
    simp only [List.map, List.mem_cons] at h
    push_neg at h
    simp only [List.lookup]
    rw [show (k == a) = false from beq_eq_false_iff_ne.mpr h.1]
    exact ih h.2

theorem lookup_isSome_of_mem (l : List (Nat × Int)) (k : Nat)
    (h : k ∈ l.map Prod.fst) : ∃ v, l.lookup k = some v := by
  induction l with
  | nil => simp at h
  | cons kv rest ih =>
    rcases kv with ⟨a, v⟩
    simp only [List.lookup]
    cases hka : k == a
    · simp only []
      simp only [List.map, List.mem_cons] at h
      rcases h with h | h
      · exact absurd h (beq_eq_false_iff_ne.mp hka)
      · exact ih h
    · exact ⟨v, rfl⟩

theorem lookup_append_right (l₁ l₂ : List (Nat × Int)) (k : Nat)
    (h : k ∉ l₁.map Prod.fst) : (l₁ ++ l₂).lookup k = l₂.lookup k := by
  induction l₁ with
  | nil => rfl
  | cons kv rest ih =>
    rcases kv with ⟨a, v⟩
    simp only [List.map, List.mem_cons] at h
    push_neg at h
    simp only [List.cons_append, List.lookup]
    rw [show (k == a) = false from beq_eq_false_iff_ne.mpr h.1]
    exact ih h.2

theorem lookup_append_left (l₁ l₂ : List (Nat × Int)) (k : Nat)
    (h : k ∈ l₁.map Prod.fst) : (l₁ ++ l₂).lookup k = l₁.lookup k := by
  induction l₁ with
  | nil => simp at h
  | cons kv rest ih =>
    rcases kv with ⟨a, v⟩
    simp only [List.cons_append, List.lookup]
    cases hka : k == a
    · simp only []
      simp only [List.map, List.mem_cons] at h
      rcases h with h | h
      · exact absurd h (beq_eq_false_iff_ne.mp hka)
      · exact ih h
    · rfl

theorem getD_lookup_append (l₁ l₂ : List (Nat × Int)) (k : Nat) (d : Int)
    (hdis : ∀ x ∈ l₁.map Prod.fst, x ∉ l₂.map Prod.fst) :
    ((l₁ ++ l₂).lookup k).getD d = (l₂.lookup k).getD ((l₁.lookup k).getD d) := by
  by_cases h1 : k ∈ l₁.map Prod.fst
  · rw [lookup_append_left _ _ _ h1, lookup_eq_none_of_not_mem _ _ (hdis k h1)]
    rfl
  · rw [lookup_append_right _ _ _ h1, lookup_eq_none_of_not_mem _ _ h1]
    rfl

theorem attMap_keys (atts : List UsdAttributeM) (idx : Int) :
    (atts.map (fun a => (a.id, idx))).map Prod.fst = atts.map UsdAttributeM.id := by
  rw [List.map_map]
  rfl

theorem lookup_attMap_of_mem (atts : List UsdAttributeM) (idx : Int) (k : Nat)
    (h : k ∈ atts.map UsdAttributeM.id) :
    (atts.map (fun a => (a.id, idx))).lookup k = some idx := by
  induction atts with
  | nil => simp at h
  | cons a rest ih =>
    simp only [List.map, List.lookup]
    cases hka : k == a.id
    · simp only []
      simp only [List.map, List.mem_cons] at h
      rcases h with h | h
      · exact absurd h (beq_eq_false_iff_ne.mp hka)
      · exact ih h
    · rfl

theorem posAssign_keys (ids : List Nat) (start : Int) :
    (posAssign ids start).map Prod.fst = ids := by
  induction ids generalizing start with
  | nil => rfl
  | cons k rest ih => simp [posAssign, ih]

theorem posAssign_append (l₁ l₂ : List Nat) (s : Int) :
    posAssign (l₁ ++ l₂) s = posAssign l₁ s ++ posAssign l₂ (s + l₁.length) := by
  induction l₁ generalizing s with
  | nil => simp [posAssign]
  | cons k rest ih =>
    simp only [List.cons_append, posAssign, ih, List.length_cons, Nat.cast_add,
      Nat.cast_one]
    rw [show (s + ((rest.length : Int) + 1)) = s + 1 + (rest.length : Int) by ring,
      show rest.append l₂ = rest ++ l₂ from rfl, ih]

theorem lookup_posAssign (ids : List Nat) (start : Int) (k : Nat) (h : k ∈ ids) :
    (posAssign ids start).lookup k = some (start + (ids.indexOf k : Int)) := by
  induction ids generalizing start with
  | nil => simp at h
  | cons a rest ih =>
    simp only [posAssign, List.lookup]
    cases hka : k == a
    · simp only []
      rcases List.mem_cons.mp h with h | h
      · exact absurd h.symm (Ne.symm (beq_eq_false_iff_ne.mp hka))
      · rw [ih _ h, List.indexOf_cons_ne _ (Ne.symm (beq_eq_false_iff_ne.mp hka))]
        congr 1
        push_cast
        ring
    · rw [show a = k from (beq_iff_eq.mp hka).symm, List.indexOf_cons_self]
      norm_num

end Molrender
namespace Molrender

/-! ### Structural facts about the reference enumerations -/

mutual
theorem nodeIds_length (p : UsdPrimM) : (nodeIds p).length = 1 + p.countItems := by
  match p with
  | .mk id nm cl mt ch atts =>
    simp only [nodeIds, UsdPrimM.countItems, List.length_cons, List.length_append,
      List.length_map, nodeIdsList_length ch]
    omega
  termination_by structural p

theorem nodeIdsList_length (ps : List UsdPrimM) :
    (nodeIdsList ps).length = ps.length + countItemsList ps := by
  match ps with
  | [] => rfl
  | p :: rest =>
    simp only [nodeIdsList, countItemsList, List.length_append, List.length_cons,
      nodeIds_length p, nodeIdsList_length rest]
    omega
  termination_by structural ps
end

mutual
theorem updAssign_keys (p : UsdPrimM) (idx : Int) :
    (updAssign p idx).map Prod.fst = nodeIds p := by
  match p with
  | .mk id nm cl mt ch atts =>
    simp only [updAssign, nodeIds, List.map_cons, List.map_append,
      updAssignList_keys ch (idx + 1), attMap_keys]
  termination_by structural p

theorem updAssignList_keys (ps : List UsdPrimM) (idx : Int) :
    (updAssignList ps idx).map Prod.fst = nodeIdsList ps := by
  match ps with
  | [] => rfl
  | p :: rest =>
    simp only [updAssignList, nodeIdsList, List.map_append, updAssign_keys p idx,
      updAssignList_keys rest (idx + 1 + p.countItems)]
  termination_by structural ps
end

mutual
theorem primIds_sub (p : UsdPrimM) : ∀ k ∈ primIds p, k ∈ nodeIds p := by
  match p with
  | .mk id nm cl mt ch atts =>
    intro k hk
    simp only [primIds, List.mem_cons] at hk
    simp only [nodeIds, List.mem_cons, List.mem_append]
    rcases hk with h | h
    · exact Or.inl h
    · exact Or.inr (Or.inl (primIdsList_sub ch k h))
  termination_by structural p

theorem primIdsList_sub (ps : List UsdPrimM) :
    ∀ k ∈ primIdsList ps, k ∈ nodeIdsList ps := by
  match ps with
  | [] =>
    intro k hk
    simp [primIdsList] at hk
  | p :: rest =>
    intro k hk
    simp only [primIdsList, List.mem_append] at hk
    simp only [nodeIdsList, List.mem_append]
    rcases hk with h | h
    · exact Or.inl (primIds_sub p k h)
    · exact Or.inr (primIdsList_sub rest k h)
  termination_by structural ps
end

mutual
theorem attPairs_mem (p : UsdPrimM) :
    ∀ pr ∈ attPairs p, pr.1 ∈ nodeIds p ∧ pr.2 ∈ nodeIds p := by
  match p with
  | .mk id nm cl mt ch atts =>
    intro pr hpr
    simp only [attPairs, List.mem_append] at hpr
    simp only [nodeIds, List.mem_cons, List.mem_append]
    rcases hpr with h | h
    · have := attPairsList_mem ch pr h
      exact ⟨Or.inr (Or.inl this.1), Or.inr (Or.inl this.2)⟩
    · rcases List.mem_map.mp h with ⟨a, ha, rfl⟩
      exact ⟨Or.inl rfl, Or.inr (Or.inr (List.mem_map_of_mem _ ha))⟩
  termination_by structural p

theorem attPairsList_mem (ps : List UsdPrimM) :
    ∀ pr ∈ attPairsList ps, pr.1 ∈ nodeIdsList ps ∧ pr.2 ∈ nodeIdsList ps := by
  match ps with
  | [] =>
    intro pr hpr
    simp [attPairsList] at hpr
  | p :: rest =>
    intro pr hpr
    simp only [attPairsList, List.mem_append] at hpr
    simp only [nodeIdsList, List.mem_append]
    rcases hpr with h | h
    · have := attPairs_mem p pr h
      exact ⟨Or.inl this.1, Or.inl this.2⟩
    · have := attPairsList_mem rest pr h
      exact ⟨Or.inr this.1, Or.inr this.2⟩
  termination_by structural ps
end

mutual
theorem primAttIds_sub (p : UsdPrimM) : ∀ k ∈ primAttIds p, k ∈ nodeIds p := by
  match p with
  | .mk id nm cl mt ch atts =>
    intro k hk
    simp only [primAttIds, List.mem_append] at hk
    simp only [nodeIds, List.mem_cons, List.mem_append]
    rcases hk with h | h
    · exact Or.inr (Or.inr h)
    · exact Or.inr (Or.inl (primsAttIds_sub ch k h))
  termination_by structural p

theorem primsAttIds_sub (ps : List UsdPrimM) :
    ∀ k ∈ primsAttIds ps, k ∈ nodeIdsList ps := by
  match ps with
  | [] =>
    intro k hk
    simp [primsAttIds] at hk
  | p :: rest =>
    intro k hk
    simp only [primsAttIds, List.mem_append] at hk
    simp only [nodeIdsList, List.mem_append]
    rcases hk with h | h
    · exact Or.inl (primAttIds_sub p k h)
    · exact Or.inr (primsAttIds_sub rest k h)
  termination_by structural ps
end

end Molrender
namespace Molrender

/-! ### What `updatePathIndices` computes -/

theorem updAtts_snd (atts : List UsdAttributeM) (env : Env) (pid : Nat) (idx : Int) :
    (updAtts env pid atts idx).2 = idx + atts.length := by
  induction atts generalizing env idx with
  | nil => simp [updAtts]
  | cons a rest ih =>
    simp only [updAtts, ih, List.length_cons]
    push_cast
    ring

theorem updAtts_fst (atts : List UsdAttributeM) (env : Env) (pid : Nat) (idx : Int)
    (hpid : pid ∉ atts.map UsdAttributeM.id) (k : Nat) :
    (updAtts env pid atts idx).1 k =
      if k ∈ atts.map UsdAttributeM.id then env pid else env k := by
  induction atts generalizing env idx with
  | nil => simp [updAtts]
  | cons a rest ih =>
    simp only [List.map, List.mem_cons] at hpid ⊢
    push_neg at hpid
    simp only [updAtts]
    rw [ih _ _ hpid.2]
    have hpv : setEnv env a.id (env pid) pid = env pid := by
      simp [setEnv, hpid.1]
    by_cases hkr : k ∈ rest.map UsdAttributeM.id
    · rw [if_pos hkr, if_pos (Or.inr hkr), hpv]
    · rw [if_neg hkr]
      by_cases hka : k = a.id
      · rw [if_pos (Or.inl hka)]
        simp [setEnv, hka]
      · rw [if_neg (by push_neg; exact ⟨hka, hkr⟩)]
        simp [setEnv, hka]

mutual
theorem updPrim_snd (p : UsdPrimM) (env : Env) (idx : Int) :
    (updPrim env p idx).2 = idx + 1 + p.countItems := by
  match p with
  | .mk id nm cl mt ch atts =>
    simp only [updPrim, updAtts_snd, updPrims_snd ch, UsdPrimM.countItems]
    push_cast
    ring
  termination_by structural p

theorem updPrims_snd (ps : List UsdPrimM) (env : Env) (idx : Int) :
    (updPrims env ps idx).2 = idx + ps.length + countItemsList ps := by
  match ps with
  | [] => simp [updPrims, countItemsList]
  | p :: rest =>
    simp only [updPrims, updPrims_snd rest, updPrim_snd p, countItemsList,
      List.length_cons]
    push_cast
    ring
  termination_by structural ps
end

mutual
theorem updPrim_lookup (p : UsdPrimM) (env : Env) (idx : Int)
    (hnd : (nodeIds p).Nodup) (k : Nat) :
    (updPrim env p idx).1 k = ((updAssign p idx).lookup k).getD (env k) := by
  match p with
  | .mk id nm cl mt ch atts =>
    simp only [nodeIds, List.nodup_cons, List.mem_append, List.nodup_append] at hnd
    obtain ⟨hid, hmid, hatts, hdisj⟩ := hnd
    push_neg at hid
    simp only [updPrim]
    rw [updAtts_fst _ _ _ _ hid.2]
    have hEid : (updPrims (setEnv env id idx) ch (idx + 1)).1 id = idx := by
      rw [updPrims_lookup ch _ _ hmid id, lookup_eq_none_of_not_mem _ _
        (by rw [updAssignList_keys]; exact hid.1)]
      simp [setEnv]
    have hEk : ∀ k2, k2 ≠ id → (updPrims (setEnv env id idx) ch (idx + 1)).1 k2 =
        ((updAssignList ch (idx + 1)).lookup k2).getD (env k2) := by
      intro k2 h2
      rw [updPrims_lookup ch _ _ hmid k2]
      simp [setEnv, h2]
    simp only [updAssign]
    by_cases hk : k = id
    · subst hk
      rw [if_neg hid.2, hEid]
      simp [List.lookup]
    · rw [show List.lookup k ((id, idx) :: (updAssignList ch (idx + 1) ++
        atts.map (fun a => (a.id, idx)))) = List.lookup k (updAssignList ch (idx + 1) ++
        atts.map (fun a => (a.id, idx))) from by
          simp only [List.lookup, show (k == id) = false from beq_eq_false_iff_ne.mpr hk]]
      rw [getD_lookup_append _ _ _ _
        (by rw [updAssignList_keys, attMap_keys]; exact hdisj)]
      by_cases hka : k ∈ atts.map UsdAttributeM.id
      · rw [if_pos hka, hEid, lookup_attMap_of_mem _ _ _ hka]
        rfl
      · rw [if_neg hka, hEk k hk,
          lookup_eq_none_of_not_mem (atts.map (fun a => (a.id, idx))) k
            (by rw [attMap_keys]; exact hka)]
        rfl
  termination_by structural p

theorem updPrims_lookup (ps : List UsdPrimM) (env : Env) (idx : Int)
    (hnd : (nodeIdsList ps).Nodup) (k : Nat) :
    (updPrims env ps idx).1 k = ((updAssignList ps idx).lookup k).getD (env k) := by
  match ps with
  | [] => rfl
  | p :: rest =>
    simp only [nodeIdsList, List.nodup_append] at hnd
    obtain ⟨hp, hrest, hdisj⟩ := hnd
    simp only [updPrims]
    rw [updPrim_snd p, updPrims_lookup rest _ _ hrest k, updPrim_lookup p _ _ hp k]
    simp only [updAssignList]
    rw [getD_lookup_append _ _ _ _
      (by rw [updAssign_keys, updAssignList_keys]; exact hdisj)]
  termination_by structural ps
end

/-- `updTop` pointwise: the root environment after `updatePathIndices`
is the reference assignment of the children from index 1 over the
initial environment. -/
theorem updTop_lookup (root : UsdPrimM)
    (hnd : (nodeIdsList root.children).Nodup) (k : Nat) :
    updTop root k = ((updAssignList root.children 1).lookup k).getD (initEnv root k) := by
  unfold updTop
  exact updPrims_lookup root.children _ 1 hnd k

end Molrender
namespace Molrender

mutual
theorem updAssign_prim_pos (p : UsdPrimM) (idx : Int) (hnd : (nodeIds p).Nodup) :
    ∀ k ∈ primIds p,
      (updAssign p idx).lookup k = some (idx + ((nodeIds p).indexOf k : Int)) := by
  match p with
  | .mk id nm cl mt ch atts =>
    intro k hk
    simp only [nodeIds, List.nodup_cons, List.mem_append, List.nodup_append] at hnd
    obtain ⟨hid, hmid, hatts, hdisj⟩ := hnd
    push_neg at hid
    simp only [primIds, List.mem_cons] at hk
    simp only [updAssign, nodeIds]
    rcases hk with hk | hk
    · subst hk
      rw [List.indexOf_cons_self]
      simp [List.lookup]
    · have hkm : k ∈ nodeIdsList ch := primIdsList_sub ch k hk
      have hkid : k ≠ id := fun hh => hid.1 (hh ▸ hkm)
      rw [show List.lookup k ((id, idx) :: (updAssignList ch (idx + 1) ++
        atts.map (fun a => (a.id, idx)))) = List.lookup k (updAssignList ch (idx + 1) ++
        atts.map (fun a => (a.id, idx))) from by
          simp only [List.lookup, show (k == id) = false from beq_eq_false_iff_ne.mpr hkid]]
      rw [lookup_append_left _ _ _ (by rw [updAssignList_keys]; exact hkm)]
      rw [updAssignList_prim_pos ch (idx + 1) hmid k hk]
      rw [List.indexOf_cons_ne _ (Ne.symm hkid), List.indexOf_append_of_mem hkm]
      congr 1
      push_cast
      ring
  termination_by structural p

theorem updAssignList_prim_pos (ps : List UsdPrimM) (idx : Int)
    (hnd : (nodeIdsList ps).Nodup) :
    ∀ k ∈ primIdsList ps,
      (updAssignList ps idx).lookup k =
        some (idx + ((nodeIdsList ps).indexOf k : Int)) := by
  match ps with
  | [] =>
    intro k hk
    simp [primIdsList] at hk
  | p :: rest =>
    intro k hk
    simp only [nodeIdsList, List.nodup_append] at hnd
    obtain ⟨hp, hrest, hdisj⟩ := hnd
    simp only [primIdsList, List.mem_append] at hk
    simp only [updAssignList, nodeIdsList]
    rcases hk with hk | hk
    · have hkm : k ∈ nodeIds p := primIds_sub p k hk
      rw [lookup_append_left _ _ _ (by rw [updAssign_keys]; exact hkm),
        updAssign_prim_pos p idx hp k hk, List.indexOf_append_of_mem hkm]
    · have hkm : k ∈ nodeIdsList rest := primIdsList_sub rest k hk
      have hknp : k ∉ nodeIds p := fun hh => hdisj hh hkm
      rw [lookup_append_right _ _ _ (by rw [updAssign_keys]; exact hknp),
        updAssignList_prim_pos rest (idx + 1 + p.countItems) hrest k hk,
        List.indexOf_append_of_not_mem hknp, nodeIds_length p]
      congr 1
      push_cast
      ring
  termination_by structural ps
end

mutual
theorem updAssign_att_parent (p : UsdPrimM) (idx : Int) (hnd : (nodeIds p).Nodup) :
    ∀ pr ∈ attPairs p,
      (updAssign p idx).lookup pr.2 = (updAssign p idx).lookup pr.1 := by
  match p with
  | .mk id nm cl mt ch atts =>
    intro pr hpr
    simp only [nodeIds, List.nodup_cons, List.mem_append, List.nodup_append] at hnd
    obtain ⟨hid, hmid, hatts, hdisj⟩ := hnd
    push_neg at hid
    simp only [attPairs, List.mem_append] at hpr
    simp only [updAssign]
    rcases hpr with hpr | hpr
    · have hm := attPairsList_mem ch pr hpr
      have h1id : pr.1 ≠ id := fun hh => hid.1 (hh ▸ hm.1)
      have h2id : pr.2 ≠ id := fun hh => hid.1 (hh ▸ hm.2)
      rw [show List.lookup pr.2 ((id, idx) :: (updAssignList ch (idx + 1) ++
        atts.map (fun a => (a.id, idx)))) = List.lookup pr.2 (updAssignList ch (idx + 1) ++
        atts.map (fun a => (a.id, idx))) from by
          simp only [List.lookup, show (pr.2 == id) = false from beq_eq_false_iff_ne.mpr h2id]]
      rw [show List.lookup pr.1 ((id, idx) :: (updAssignList ch (idx + 1) ++
        atts.map (fun a => (a.id, idx)))) = List.lookup pr.1 (updAssignList ch (idx + 1) ++
        atts.map (fun a => (a.id, idx))) from by
          simp only [List.lookup, show (pr.1 == id) = false from beq_eq_false_iff_ne.mpr h1id]]
      rw [lookup_append_left _ _ _ (by rw [updAssignList_keys]; exact hm.2),
        lookup_append_left _ _ _ (by rw [updAssignList_keys]; exact hm.1)]
      exact updAssignList_att_parent ch (idx + 1) hmid pr hpr
    · rcases List.mem_map.mp hpr with ⟨a, ha, hpa⟩
      subst hpa
      show List.lookup a.id ((id, idx) :: (updAssignList ch (idx + 1) ++
        atts.map (fun a => (a.id, idx)))) = List.lookup id ((id, idx) ::
        (updAssignList ch (idx + 1) ++ atts.map (fun a => (a.id, idx))))
      have hmem : a.id ∈ atts.map UsdAttributeM.id := List.mem_map_of_mem _ ha
      have h2id : a.id ≠ id := fun hh => hid.2 (hh ▸ hmem)
      rw [show List.lookup a.id ((id, idx) :: (updAssignList ch (idx + 1) ++
        atts.map (fun a => (a.id, idx)))) = List.lookup a.id (updAssignList ch (idx + 1) ++
        atts.map (fun a => (a.id, idx))) from by
          simp only [List.lookup, show (a.id == id) = false from beq_eq_false_iff_ne.mpr h2id]]
      rw [lookup_append_right _ _ _ (by
        rw [updAssignList_keys]
        exact fun hh => hdisj hh hmem)]
      rw [lookup_attMap_of_mem _ _ _ hmem]
      simp [List.lookup]
  termination_by structural p

theorem updAssignList_att_parent (ps : List UsdPrimM) (idx : Int)
    (hnd : (nodeIdsList ps).Nodup) :
    ∀ pr ∈ attPairsList ps,
      (updAssignList ps idx).lookup pr.2 = (updAssignList ps idx).lookup pr.1 := by
  match ps with
  | [] =>
    intro pr hpr
    simp [attPairsList] at hpr
  | p :: rest =>
    intro pr hpr
    simp only [nodeIdsList, List.nodup_append] at hnd
    obtain ⟨hp, hrest, hdisj⟩ := hnd
    simp only [attPairsList, List.mem_append] at hpr
    simp only [updAssignList]
    rcases hpr with hpr | hpr
    · have hm := attPairs_mem p pr hpr
      rw [lookup_append_left _ _ _ (by rw [updAssign_keys]; exact hm.2),
        lookup_append_left _ _ _ (by rw [updAssign_keys]; exact hm.1)]
      exact updAssign_att_parent p idx hp pr hpr
    · have hm := attPairsList_mem rest pr hpr
      rw [lookup_append_right _ _ _ (by
          rw [updAssign_keys]; exact fun hh => hdisj hh hm.2),
        lookup_append_right _ _ _ (by
          rw [updAssign_keys]; exact fun hh => hdisj hh hm.1)]
      exact updAssignList_att_parent rest (idx + 1 + p.countItems) hrest pr hpr
  termination_by structural ps
end

end Molrender
namespace Molrender
namespace CrateFile

/-! ### What `writeUsd` stores into the `pathIndex` fields -/

theorem addSpec_fst (f t : Nat) (st : CrateState) :
    (addSpec f t st).1 = st.specs.length := rfl

theorem specsLen_of_tables (st' st : CrateState) (h : tables st' = tables st) :
    st'.specs.length = st.specs.length :=
  congrArg (fun t => t.1.length) h

theorem specsLen_addFieldSet (fs : List Int) (st : CrateState) :
    (addFieldSet fs st).2.specs.length = st.specs.length :=
  specsLen_of_tables _ _ (tables_addFieldSet fs st)

theorem specsLen_addFieldToken (f d : String) (st : CrateState) :
    (addFieldToken f d st).2.specs.length = st.specs.length :=
  specsLen_of_tables _ _ (tables_addFieldToken f d st)

theorem specsLen_addFieldSpecifier (f : String) (sp : Nat) (st : CrateState) :
    (addFieldSpecifier f sp st).2.specs.length = st.specs.length :=
  specsLen_of_tables _ _ (tables_addFieldSpecifier f sp st)

theorem specsLen_addFieldVariability (f : String) (d : Bool) (st : CrateState) :
    (addFieldVariability f d st).2.specs.length = st.specs.length :=
  specsLen_of_tables _ _ (tables_addFieldVariability f d st)

theorem specsLen_addFieldPathListOp (f : String) (pi : Int) (st : CrateState) :
    (addFieldPathListOp f pi st).2.specs.length = st.specs.length :=
  specsLen_of_tables _ _ (tables_addFieldPathListOp f pi st)

theorem specsLen_addFieldPathVector (f : String) (pi : Int) (st : CrateState) :
    (addFieldPathVector f pi st).2.specs.length = st.specs.length :=
  specsLen_of_tables _ _ (tables_addFieldPathVector f pi st)

theorem specsLen_addFieldTokenVector (f : String) (ts : List String) (st : CrateState) :
    (addFieldTokenVector f ts st).2.specs.length = st.specs.length :=
  specsLen_of_tables _ _ (tables_addFieldTokenVector f ts st)

theorem specsLen_addFieldTimeSamples (f : String) (d : List (Nat × AttValueM))
    (v : Nat) (st : CrateState) :
    (addFieldTimeSamples f d v st).2.specs.length = st.specs.length :=
  specsLen_of_tables _ _ (tables_addFieldTimeSamples f d v st)

theorem specsLen_addQualifierFields (qs : List String) (st : CrateState) :
    (addQualifierFields qs st).2.specs.length = st.specs.length :=
  specsLen_of_tables _ _ (tables_addQualifierFields qs st)

theorem specsLen_addAttMetadataFields (l : List (String × String)) (st : CrateState) :
    (addAttMetadataFields l st).2.specs.length = st.specs.length :=
  specsLen_of_tables _ _ (tables_addAttMetadataFields l st)

theorem specsLen_addRootMetadataFields (l : List (String × MetaValueM)) (st : CrateState) :
    (addRootMetadataFields l st).2.specs.length = st.specs.length :=
  specsLen_of_tables _ _ (tables_addRootMetadataFields l st)

/-- The shared `addSpec` → `getTokenIndex` → `addPath` writer tail adds
exactly one spec. -/
theorem specsLen_specPathStep (st0 : CrateState) (fset sType : Nat) (nm : String)
    (pI j : Int) (b : Bool) :
    (addPath pI (getTokenIndex nm (addSpec fset sType st0).2).1 j b
      (getTokenIndex nm (addSpec fset sType st0).2).2).specs.length =
      st0.specs.length + 1 := by
  rw [specs_addPath, specs_getTokenIndex, specs_addSpec, List.length_append]
  rfl

theorem writeUsdConnection_env (parent : UsdPrimM) (att : UsdAttributeM)
    (targetId : Nat) (env : Env) (st : CrateState) :
    (∀ k, (writeUsdConnection parent att targetId env st).1 k =
      setEnv env att.id (st.specs.length : Int) k) ∧
    (writeUsdConnection parent att targetId env st).2.specs.length =
      st.specs.length + 1 := by
  constructor
  · intro k
    simp only [writeUsdConnection]
    rw [addSpec_fst, specsLen_addFieldSet, specsLen_addFieldPathVector,
      specsLen_addFieldPathListOp, specsLen_addQualifierFields, specsLen_addFieldToken]
  · simp only [writeUsdConnection]
    rw [specsLen_specPathStep, specsLen_addFieldSet, specsLen_addFieldPathVector,
      specsLen_addFieldPathListOp, specsLen_addQualifierFields, specsLen_addFieldToken]

theorem writeUsdRelationship_env (parent : UsdPrimM) (att : UsdAttributeM)
    (targetId : Nat) (env : Env) (st : CrateState) :
    (∀ k, (writeUsdRelationship parent att targetId env st).1 k =
      setEnv env att.id (st.specs.length : Int) k) ∧
    (writeUsdRelationship parent att targetId env st).2.specs.length =
      st.specs.length + 1 := by
  constructor
  · intro k
    simp only [writeUsdRelationship]
    rw [addSpec_fst, specsLen_addFieldSet, specsLen_addFieldPathVector,
      specsLen_addFieldPathListOp, specsLen_addFieldVariability]
  · simp only [writeUsdRelationship]
    rw [specsLen_specPathStep, specsLen_addFieldSet, specsLen_addFieldPathVector,
      specsLen_addFieldPathListOp, specsLen_addFieldVariability]

set_option maxHeartbeats 1000000 in
theorem writeUsdAttribute_env (parent : UsdPrimM) (att : UsdAttributeM)
    (env : Env) (st : CrateState) (r : Env × CrateState)
    (h : writeUsdAttribute parent att env st = .ok r) :
    (∀ k, r.1 k = setEnv env att.id (st.specs.length : Int) k) ∧
    r.2.specs.length = st.specs.length + 1 := by
  simp only [writeUsdAttribute] at h
  split at h
  · exact Except.noConfusion h
  · rename_i fset1 st1 heq
    injection h with h
    subst h
    have hst1 : st1.specs.length = st.specs.length := by
      split at heq
      · split at heq
        · exact Except.noConfusion heq
        · rename_i r1 heq2
          injection heq with heq
          have h5 : r1.2 = st1 := congrArg Prod.snd heq
          rw [← h5, specsLen_of_tables _ _ (tables_addField _ _ _ _ heq2),
            specsLen_addAttMetadataFields, specsLen_addQualifierFields,
            specsLen_addFieldToken]
      · injection heq with heq
        have h5 : (addAttMetadataFields att.metadata
            (addQualifierFields att.qualifiers
              (addFieldToken "typeName" att.valueTypeStr st).2).2).2 = st1 :=
          congrArg Prod.snd heq
        rw [← h5, specsLen_addAttMetadataFields, specsLen_addQualifierFields,
          specsLen_addFieldToken]
    constructor
    · intro k
      dsimp only
      rw [addSpec_fst, specsLen_addFieldSet]
      split
      · dsimp only
        rw [specsLen_addFieldTimeSamples, hst1]
      · dsimp only
        rw [hst1]
    · dsimp only
      rw [specsLen_specPathStep, specsLen_addFieldSet]
      split
      · dsimp only
        rw [specsLen_addFieldTimeSamples, hst1]
      · dsimp only
        rw [hst1]

end CrateFile
end Molrender
namespace Molrender
namespace CrateFile

theorem posLookup_cons_flex (a : Nat) (ids : List Nat) (s t : Int)
    (env env2 : Env) (k : Nat) (ht : t = s + 1)
    (henv2 : ∀ k2, k2 ≠ a → env2 k2 = env k2) (henva : env2 a = s)
    (hna : a ∉ ids) :
    ((posAssign ids t).lookup k).getD (env2 k)
    = ((posAssign (a :: ids) s).lookup k).getD (env k) := by
  subst ht
  simp only [posAssign]
  by_cases hk : k = a
  · rw [hk]
    rw [lookup_eq_none_of_not_mem _ _ (by rw [posAssign_keys]; exact hna),
      show List.lookup a ((a, s) :: posAssign ids (s + 1)) = some s from by
        simp [List.lookup]]
    simp [henva]
  · rw [show List.lookup k ((a, s) :: posAssign ids (s + 1)) =
      List.lookup k (posAssign ids (s + 1)) from by
        simp only [List.lookup, show (k == a) = false from beq_eq_false_iff_ne.mpr hk],
      henv2 k hk]

theorem posLookup_append_flex (l₁ l₂ : List Nat) (s t : Int) (env : Env) (k : Nat)
    (ht : t = s + l₁.length) (hdisj : l₁.Disjoint l₂) :
    ((posAssign l₂ t).lookup k).getD (((posAssign l₁ s).lookup k).getD (env k))
    = ((posAssign (l₁ ++ l₂) s).lookup k).getD (env k) := by
  subst ht
  rw [posAssign_append, getD_lookup_append _ _ _ _
    (by rw [posAssign_keys, posAssign_keys]; exact hdisj)]

theorem writeUsdAttList_env (parent : UsdPrimM) (atts : List UsdAttributeM) :
    ∀ env st r, writeUsdAttList parent atts env st = .ok r →
      (atts.map UsdAttributeM.id).Nodup →
      (∀ k, r.1 k = ((posAssign (atts.map UsdAttributeM.id)
        (st.specs.length : Int)).lookup k).getD (env k)) ∧
      r.2.specs.length = st.specs.length + atts.length := by
  induction atts with
  | nil =>
    intro env st r h _
    simp only [writeUsdAttList] at h
    injection h with h
    subst h
    exact ⟨fun k => rfl, by simp⟩
  | cons a rest ih =>
    intro env st r h hnd
    simp only [List.map, List.nodup_cons] at hnd
    obtain ⟨hna, hndr⟩ := hnd
    simp only [writeUsdAttList] at h
    split at h
    · exact Except.noConfusion h
    · rename_i r1 heq
      have hstep : (∀ k, r1.1 k = setEnv env a.id (st.specs.length : Int) k) ∧
          r1.2.specs.length = st.specs.length + 1 := by
        split at heq
        · injection heq with heq
          subst heq
          exact writeUsdConnection_env _ _ _ _ _
        · injection heq with heq
          subst heq
          exact writeUsdRelationship_env _ _ _ _ _
        · exact writeUsdAttribute_env _ _ _ _ _ heq
      obtain ⟨hih1, hih2⟩ := ih r1.1 r1.2 r h hndr
      constructor
      · intro k
        rw [hih1 k]
        refine posLookup_cons_flex a.id (rest.map UsdAttributeM.id)
          (st.specs.length : Int) _ env r1.1 k ?_ ?_ ?_ hna
        · rw [hstep.2]
          push_cast
          ring
        · intro k2 h2
          rw [hstep.1 k2]
          simp [setEnv, h2]
        · rw [hstep.1 a.id]
          simp [setEnv]
      · rw [hih2, hstep.2, List.length_cons]
        omega

end CrateFile
end Molrender
namespace Molrender
namespace CrateFile

set_option maxHeartbeats 2000000 in
mutual
theorem writeUsdPrim_env (p : UsdPrimM) (parent : Option UsdPrimM) (env : Env)
    (st : CrateState) (r : Env × CrateState)
    (h : writeUsdPrim parent p env st = .ok r) (hnd : (nodeIds p).Nodup) :
    (∀ k, r.1 k = ((posAssign (nodeIds p)
      (st.specs.length : Int)).lookup k).getD (env k)) ∧
    r.2.specs.length = st.specs.length + 1 + p.countItems := by
  match p with
  | .mk id nm cl mt ch atts =>
    simp only [nodeIds, List.nodup_cons, List.mem_append, List.nodup_append] at hnd
    obtain ⟨hid, hmid, hatts, hdisj⟩ := hnd
    push_neg at hid
    simp only [writeUsdPrim] at h
    split at h
    · exact Except.noConfusion h
    · rename_i rm heq
      split at h
      · exact Except.noConfusion h
      · rename_i r1 heq1
        have hrm : rm.2.specs.length = st.specs.length := by
          rw [specsLen_of_tables _ _ (tables_addPrimMetadataFields _ _ _ _ heq),
            specsLen_addFieldToken, specsLen_addFieldSpecifier]
        have hPL := writeUsdPrimList_env ch (.mk id nm cl mt ch atts) _ _ r1
          heq1 hmid
        have hAL := writeUsdAttList_env (.mk id nm cl mt ch atts) atts r1.1 r1.2 r
          h hatts
        constructor
        · intro k
          rw [hAL.1 k, hPL.1 k]
          simp only [nodeIds]
          refine Eq.trans (posLookup_append_flex (nodeIdsList ch)
            (atts.map UsdAttributeM.id) _ _ _ k ?_ hdisj) ?_
          · rw [hPL.2, nodeIdsList_length]
            push_cast
            ring
          · refine posLookup_cons_flex id (nodeIdsList ch ++ atts.map UsdAttributeM.id)
              (st.specs.length : Int) _ env _ k ?_ ?_ ?_ ?_
            · rw [specsLen_specPathStep, specsLen_addFieldSet]
              split <;> split <;> dsimp only <;>
                first
                  | rw [specsLen_addFieldTokenVector, specsLen_addFieldTokenVector, hrm]
                  | rw [specsLen_addFieldTokenVector, hrm]
                  | rw [hrm]
              all_goals
                push_cast
                ring
            · intro k2 h2
              simp [setEnv, h2]
            · simp only [setEnv, if_pos]
              rw [addSpec_fst, specsLen_addFieldSet]
              split <;> split <;> dsimp only <;>
                first
                  | rw [specsLen_addFieldTokenVector, specsLen_addFieldTokenVector, hrm]
                  | rw [specsLen_addFieldTokenVector, hrm]
                  | rw [hrm]
            · simp only [List.mem_append]
              push_neg
              exact hid
        · rw [hAL.2, hPL.2, specsLen_specPathStep, specsLen_addFieldSet]
          have hcnt : (UsdPrimM.mk id nm cl mt ch atts).countItems =
              atts.length + ch.length + countItemsList ch := rfl
          rw [hcnt]
          split <;> split <;> dsimp only <;>
            first
              | rw [specsLen_addFieldTokenVector, specsLen_addFieldTokenVector, hrm]
              | rw [specsLen_addFieldTokenVector, hrm]
              | rw [hrm]
          all_goals omega
  termination_by structural p

theorem writeUsdPrimList_env (ps : List UsdPrimM) (parent : UsdPrimM) (env : Env)
    (st : CrateState) (r : Env × CrateState)
    (h : writeUsdPrimList parent ps env st = .ok r)
    (hnd : (nodeIdsList ps).Nodup) :
    (∀ k, r.1 k = ((posAssign (nodeIdsList ps)
      (st.specs.length : Int)).lookup k).getD (env k)) ∧
    r.2.specs.length = st.specs.length + ps.length + countItemsList ps := by
  match ps with
  | [] =>
    simp only [writeUsdPrimList] at h
    injection h with h
    subst h
    exact ⟨fun k => rfl, by simp [countItemsList]⟩
  | c :: rest =>
    simp only [nodeIdsList, List.nodup_append] at hnd
    obtain ⟨hc, hrest, hdisj⟩ := hnd
    simp only [writeUsdPrimList] at h
    split at h
    · exact Except.noConfusion h
    · rename_i r1 heq
      have hp := writeUsdPrim_env c (some parent) _ _ r1 heq hc
      have hih := writeUsdPrimList_env rest parent _ _ r h hrest
      constructor
      · intro k
        rw [hih.1 k, hp.1 k]
        simp only [nodeIdsList]
        refine posLookup_append_flex (nodeIds c) (nodeIdsList rest)
          (st.specs.length : Int) _ env k ?_ hdisj
        · rw [hp.2, nodeIds_length]
          push_cast
          ring
      · rw [hih.2, hp.2]
        simp only [countItemsList, List.length_cons]
        omega
  termination_by structural ps
end

end CrateFile
end Molrender
namespace Molrender

theorem nodeIds_destruct (p : UsdPrimM) :
    nodeIds p = p.id :: (nodeIdsList p.children ++ p.attributes.map UsdAttributeM.id) := by
  match p with
  | .mk id nm cl mt ch atts => rfl

theorem primAttIds_destruct (p : UsdPrimM) :
    primAttIds p = p.attributes.map UsdAttributeM.id ++ primsAttIds p.children := by
  match p with
  | .mk id nm cl mt ch atts => rfl

namespace CrateFile

theorem writeUsd_env (root : UsdPrimM) (r : Env × CrateState)
    (h : writeUsd root = .ok r)
    (hmid : (nodeIdsList root.children).Nodup)
    (hid : root.id ∉ nodeIdsList root.children) :
    ∀ k, r.1 k = ((posAssign (writtenIds root) 0).lookup k).getD (updTop root k) := by
  simp only [writeUsd] at h
  have hPL := writeUsdPrimList_env root.children root _ _ r h hmid
  intro k
  rw [hPL.1 k]
  simp only [writtenIds]
  refine posLookup_cons_flex root.id (nodeIdsList root.children) 0 _ (updTop root)
    _ k ?_ ?_ ?_ hid
  · rw [specsLen_specPathStep, specsLen_addFieldSet]
    split <;> dsimp only <;>
      first
        | rw [specsLen_addFieldTokenVector, specsLen_addRootMetadataFields]
        | rw [specsLen_addRootMetadataFields]
    all_goals decide
  · intro k2 h2
    simp [setEnv, h2]
  · simp only [setEnv, if_pos]
    rw [addSpec_fst, specsLen_addFieldSet]
    split <;> dsimp only <;>
      first
        | rw [specsLen_addFieldTokenVector, specsLen_addRootMetadataFields]
        | rw [specsLen_addRootMetadataFields]
    all_goals decide

end CrateFile

/--
C2 (corrected): `updatePathIndices` does assign the root index 0, give
every prim below the root the (strictly increasing) index of its
position in the depth-first counter order — the counter also advancing
once per attribute — and give every attribute its parent prim's index.
But the indices are not final: serialization reassigns, and after
`writeUsd` every written node's `pathIndex` holds the index of the spec
allocated for it, i.e. its own position in the same counter order —
which coincides with the first assignment for the root and the prims
but replaces each attribute's parent index with the attribute's own
position.
-/
theorem updatePathIndices_assignment (root : UsdPrimM)
    (hnd : (nodeIds root).Nodup) :
    updTop root root.id = 0 ∧
    (∀ k ∈ primIdsList root.children,
      updTop root k = 1 + ((nodeIdsList root.children).indexOf k : Int)) ∧
    (∀ pr ∈ attPairsList root.children,
      updTop root pr.2 = updTop root pr.1) ∧
    (∀ r, CrateFile.writeUsd root = .ok r →
      ∀ k ∈ writtenIds root, r.1 k = ((writtenIds root).indexOf k : Int)) := by
  rw [nodeIds_destruct] at hnd
  simp only [List.nodup_cons, List.mem_append, List.nodup_append] at hnd
  obtain ⟨hidm, hmid, hatts, hdisj⟩ := hnd
  push_neg at hidm
  refine ⟨?_, ?_, ?_, ?_⟩
  · rw [updTop_lookup root hmid root.id,
      lookup_eq_none_of_not_mem _ _ (by rw [updAssignList_keys]; exact hidm.1)]
    show initEnv root root.id = 0
    unfold initEnv
    rw [if_neg (by
      rw [primAttIds_destruct]
      simp only [List.mem_append]
      push_neg
      exact ⟨hidm.2, fun hmem => hidm.1 (primsAttIds_sub _ _ hmem)⟩)]
  · intro k hk
    rw [updTop_lookup root hmid k, updAssignList_prim_pos root.children 1 hmid k hk]
    rfl
  · intro pr hpr
    have hm := attPairsList_mem root.children pr hpr
    obtain ⟨v, hv⟩ := lookup_isSome_of_mem (updAssignList root.children 1) pr.1
      (by rw [updAssignList_keys]; exact hm.1)
    rw [updTop_lookup root hmid pr.2, updTop_lookup root hmid pr.1,
      updAssignList_att_parent root.children 1 hmid pr hpr, hv]
    rfl
  · intro r hw k hk
    rw [CrateFile.writeUsd_env root r hw hmid hidm.1 k, lookup_posAssign _ _ _ hk]
    show (0 : Int) + ((writtenIds root).indexOf k : Int) = _
    omega

theorem updatePathIndices_assignment_witness : updTop exRoot exRoot.id = 0 :=
  (updatePathIndices_assignment exRoot (by decide)).1

end Molrender
namespace Molrender

/-! ### LZ4 round trip (claim C5): token, length-run and copy lemmas -/

set_option maxRecDepth 10000 in
theorem nibble_token : ∀ a < 16, ∀ b < 16,
    (a <<< 4 ||| b) >>> 4 = a ∧ (a <<< 4 ||| b) &&& 15 = b := by decide

set_option maxRecDepth 2000 in
theorem nibble_shift : ∀ a < 16, (a <<< 4) >>> 4 = a ∧ (a <<< 4) &&& 15 = 0 := by
  decide

theorem readLenCont_contBytes (rem : Nat) : ∀ tail,
    readLenCont (contBytes rem ++ tail) = some (rem, tail) := by
  induction rem using Nat.strong_induction_on with
  | _ rem ih =>
    intro tail
    rw [contBytes]
    split
    · rename_i hge
      simp only [List.cons_append, List.append_eq, readLenCont, if_true]
      rw [ih (rem - 255) (by omega) tail]
      show some (rem - 255 + 255, tail) = some (rem, tail)
      rw [show rem - 255 + 255 = rem from by omega]
    · rename_i hlt
      simp only [List.cons_append, List.nil_append, List.append_eq, readLenCont]
      rw [if_neg (by omega)]

theorem readLen_run (L : Nat) (tail : List Nat) :
    readLen (if L ≥ 15 then 15 else L)
      ((if L ≥ 15 then contBytes (L - 15) else []) ++ tail) = some (L, tail) := by
  by_cases h : L ≥ 15
  · rw [if_pos h, if_pos h]
    simp only [readLen, if_pos rfl]
    rw [readLenCont_contBytes (L - 15) tail]
    show some (15 + (L - 15), tail) = some (L, tail)
    rw [show 15 + (L - 15) = L from by omega]
  · rw [if_neg h, if_neg h]
    simp only [readLen, List.nil_append]
    rw [if_neg (by omega)]

theorem getD_take (l : List Nat) (n i : Nat) (h : i < n) :
    (l.take n).getD i 0 = l.getD i 0 := by
  rw [List.getD_eq_getElem?_getD, List.getD_eq_getElem?_getD, List.getElem?_take,
    if_pos h]

theorem take_succ_getD (l : List Nat) (s : Nat) (h : s < l.length) :
    l.take (s + 1) = l.take s ++ [l.getD s 0] := by
  rw [List.take_succ, List.getElem?_eq_getElem h, List.getD_eq_getElem _ _ h]
  rfl

theorem length_take_of_le (l : List Nat) (s : Nat) (h : s ≤ l.length) :
    (l.take s).length = s := by
  simp [List.length_take]
  omega

theorem countMatch_spec (buf : List Nat) : ∀ (n front back max : Nat),
    max + 1 - back ≤ n →
    (∀ i < countMatch buf front back max,
      buf.getD (front + i) 0 = buf.getD (back + i) 0) ∧
    countMatch buf front back max ≤ max + 1 - back := by
  intro n
  induction n with
  | zero =>
    intro front back max hle
    rw [countMatch, if_neg (by omega)]
    exact ⟨fun i hi => absurd hi (by omega), by omega⟩
  | succ n ih =>
    intro front back max hle
    rw [countMatch]
    split
    · rename_i hbm
      split
      · rename_i heq
        obtain ⟨ih1, ih2⟩ := ih (front + 1) (back + 1) max (by omega)
        constructor
        · intro i hi
          match i with
          | 0 => simpa using heq
          | j + 1 =>
            have := ih1 j (by omega)
            rw [show front + (j + 1) = front + 1 + j by ring,
              show back + (j + 1) = back + 1 + j by ring]
            exact this
        · omega
      · exact ⟨fun i hi => absurd hi (by omega), by omega⟩
    · exact ⟨fun i hi => absurd hi (by omega), by omega⟩

theorem matchCopy_take (src : List Nat) : ∀ (n s off : Nat),
    1 ≤ off → off ≤ s → s + n ≤ src.length →
    (∀ i < n, src.getD (s - off + i) 0 = src.getD (s + i) 0) →
    matchCopy (src.take s) off n = src.take (s + n) := by
  intro n
  induction n with
  | zero =>
    intro s off h1 h2 h3 h4
    simp [matchCopy]
  | succ n ih =>
    intro s off h1 h2 h3 h4
    simp only [matchCopy]
    rw [length_take_of_le src s (by omega), getD_take src s (s - off) (by omega),
      show src.getD (s - off) 0 = src.getD s 0 from by
        have := h4 0 (by omega)
        simpa using this,
      ← take_succ_getD src s (by omega)]
    rw [ih (s + 1) off h1 (by omega) (by omega) (by
      intro i hi
      have := h4 (i + 1) (by omega)
      rw [show s - off + (i + 1) = s + 1 - off + i by omega,
        show s + (i + 1) = s + 1 + i by ring] at this
      exact this)]
    congr 1
    omega

end Molrender
namespace Molrender

theorem lz4Go_acc : ∀ (n : Nat) (src : List Nat) (srcPtr literalHead : Nat)
    (table : Nat → Int) (acc : List Nat),
    src.length - srcPtr ≤ n →
    lz4Go src srcPtr literalHead table acc =
      acc ++ lz4Go src srcPtr literalHead table [] := by
  intro n
  induction n with
  | zero =>
    intro src p lh t acc hle
    conv_lhs => rw [lz4Go]
    conv_rhs => rw [lz4Go]
    rw [dif_neg (by omega), dif_neg (by omega)]
    simp
  | succ n ih =>
    intro src p lh t acc hle
    conv_lhs => rw [lz4Go]
    conv_rhs => rw [lz4Go]
    by_cases h : p < src.length - 12
    · rw [dif_pos h, dif_pos h]
      dsimp only
      split
      · rename_i hmatch
        split
        · simp
        · rename_i h2
          have h4 : ¬ countMatch src (t (lz4Hash (readLeU32 src p))).toNat p
              (src.length - 12) < 4 := h2
          rw [ih src _ _ t _ (by omega)]
          rw [List.nil_append]
          rw [ih src _ _ t (copySequence _ _ _) (by omega)]
          simp
      · rw [ih src (p + 1) lh _ acc (by omega)]
    · rw [dif_neg h, dif_neg h]
      simp

end Molrender
namespace Molrender

theorem decode_final (out literal : List Nat) (fuel : Nat) :
    lz4DecodeGo out (copySequence literal 0 0) (fuel + 1) = some (out ++ literal) := by
  simp only [copySequence]
  rw [if_neg (by omega : ¬ (0 : Nat) > 0), if_neg (by omega : ¬ (0 : Nat) > 0)]
  simp only [List.append_nil, List.cons_append]
  simp only [lz4DecodeGo]
  rw [(nibble_shift _ (by split <;> omega)).1, readLen_run literal.length literal]
  dsimp only
  rw [if_neg (by omega : ¬ literal.length < literal.length), List.take_length,
    List.drop_length]

end Molrender
namespace Molrender

theorem decode_seq (out literal : List Nat) (offset mlen : Nat) (rest : List Nat)
    (fuel : Nat) (hm : 4 ≤ mlen) (ho1 : 1 ≤ offset) (ho2 : offset < 65536)
    (hol : offset ≤ out.length + literal.length) :
    lz4DecodeGo out (copySequence literal offset mlen ++ rest) (fuel + 1)
      = lz4DecodeGo (matchCopy (out ++ literal) offset mlen) rest fuel := by
  simp only [copySequence]
  rw [if_pos (by omega : mlen > 0), if_pos (by omega : mlen > 0)]
  simp only [List.cons_append, List.append_assoc]
  simp only [lz4DecodeGo]
  rw [(nibble_token _ (by split <;> omega) _ (by split <;> omega)).1,
    (nibble_token _ (by split <;> omega) _ (by split <;> omega)).2,
    readLen_run literal.length]
  try dsimp only
  rw [if_neg (by simp only [List.length_append]; omega),
    List.take_left' rfl, List.drop_left' rfl]
  rw [show natLE 2 offset = [offset % 256, offset / 256 % 256] from rfl]
  simp only [List.cons_append, List.nil_append]
  try dsimp only
  rw [show offset % 256 + 256 * (offset / 256 % 256) = offset from by omega]
  rw [readLen_run (mlen - 4) rest]
  try dsimp only
  rw [if_neg (by
    push_neg
    constructor
    · omega
    · simp only [List.length_append]
      omega)]
  rw [show mlen - 4 + 4 = mlen from by omega]

end Molrender
namespace Molrender

theorem copySequence_length_pos (l : List Nat) (o m : Nat) :
    1 ≤ (copySequence l o m).length := by
  simp only [copySequence, List.cons_append, List.length_cons, List.length_append]
  omega

set_option maxHeartbeats 1000000 in
theorem lz4Go_decode (src : List Nat) : ∀ (n srcPtr literalHead : Nat)
    (table : Nat → Int) (fuel : Nat),
    src.length - srcPtr ≤ n →
    literalHead ≤ srcPtr →
    (∀ hsh, table hsh = -1 ∨ (0 ≤ table hsh ∧ table hsh < (srcPtr : Int))) →
    (lz4Go src srcPtr literalHead table []).length < fuel →
    lz4DecodeGo (src.take literalHead) (lz4Go src srcPtr literalHead table []) fuel
      = some src := by
  intro n
  induction n with
  | zero =>
    intro p lh t fuel hn hlh htab hfuel
    obtain ⟨f, rfl⟩ : ∃ f, fuel = f + 1 := ⟨fuel - 1, by omega⟩
    rw [lz4Go, dif_neg (by omega), List.nil_append, decode_final,
      List.take_append_drop]
  | succ n ih =>
    intro p lh t fuel hn hlh htab hfuel
    rw [lz4Go] at hfuel ⊢
    by_cases h : p < src.length - 12
    · rw [dif_pos h] at hfuel ⊢
      dsimp only at hfuel ⊢
      split
      · rename_i hmatch
        rw [if_pos hmatch] at hfuel
        obtain ⟨hm1, hm2, hm3⟩ := hmatch
        have hmp : 0 ≤ t (lz4Hash (readLeU32 src p)) ∧
            t (lz4Hash (readLeU32 src p)) < (p : Int) := by
          rcases htab (lz4Hash (readLeU32 src p)) with h0 | h0
          · exact absurd h0 hm1
          · exact h0
        split
        · rename_i h2
          obtain ⟨f, rfl⟩ : ∃ f, fuel = f + 1 := ⟨fuel - 1, by omega⟩
          rw [List.nil_append, decode_final, List.take_append_drop]
        · rename_i h2
          rw [dif_neg h2] at hfuel
          have h4 : ¬ countMatch src (t (lz4Hash (readLeU32 src p))).toNat p
              (src.length - 12) < 4 := h2
          have hcm := countMatch_spec src (src.length - 12 + 1)
            (t (lz4Hash (readLeU32 src p))).toNat p (src.length - 12) (by omega)
          rw [lz4Go_acc n src _ _ t _ (by omega), List.nil_append] at hfuel ⊢
          rw [List.length_append] at hfuel
          have hcsl := copySequence_length_pos
            (List.take (p - lh) (List.drop lh src))
            (p - (t (lz4Hash (readLeU32 src p))).toNat)
            (countMatch src (t (lz4Hash (readLeU32 src p))).toNat p (src.length - 12))
          obtain ⟨f, rfl⟩ : ∃ f, fuel = f + 1 := ⟨fuel - 1, by omega⟩
          rw [decode_seq _ _ _ _ _ f (by omega) (by omega) (by omega)
            (by simp only [List.length_take, List.length_drop]; omega)]
          rw [show List.take lh src ++ List.take (p - lh) (List.drop lh src)
              = List.take p src from by
            rw [← List.take_add]
            congr 1
            omega]
          rw [matchCopy_take src _ p _ (by omega) (by omega) (by omega) (by
            intro i hi
            have hb := hcm.1 i hi
            rw [show p - (p - (t (lz4Hash (readLeU32 src p))).toNat) + i
                = (t (lz4Hash (readLeU32 src p))).toNat + i from by omega]
            exact hb)]
          exact ih _ _ t f (by omega) (by omega)
            (fun hsh => by
              rcases htab hsh with h0 | h0
              · exact Or.inl h0
              · exact Or.inr ⟨h0.1, by push_cast; omega⟩)
            (by omega)
      · rename_i hnom
        rw [if_neg hnom] at hfuel
        exact ih (p + 1) lh _ fuel (by omega) (by omega)
          (fun hsh => by
            by_cases heq : hsh = lz4Hash (readLeU32 src p)
            · rw [if_pos heq]
              exact Or.inr ⟨by positivity, by push_cast; omega⟩
            · rw [if_neg heq]
              rcases htab hsh with h0 | h0
              · exact Or.inl h0
              · exact Or.inr ⟨h0.1, by push_cast; omega⟩)
          hfuel
    · rw [dif_neg h] at hfuel ⊢
      obtain ⟨f, rfl⟩ : ∃ f, fuel = f + 1 := ⟨fuel - 1, by omega⟩
      rw [List.nil_append, decode_final, List.take_append_drop]

end Molrender
namespace Molrender

/--
C5: LZ4 self-consistency.  For every byte sequence `S` with
`|S| ≤ 0x7E000000`, `lz4Compress` succeeds and the reference LZ4 block
decoder applied to its output after skipping the single leading padding
byte reproduces `S` exactly (the empty input compresses to the empty
byte string, which decodes to the empty sequence).
-/
theorem lz4_roundtrip (src : List Nat) (hlen : src.length ≤ 0x7E000000) :
    ∃ out, lz4Compress src = .ok out ∧ lz4Decompress (out.drop 1) = some src := by
  by_cases h0 : src.length = 0
  · refine ⟨[], ?_, ?_⟩
    · unfold lz4Compress
      rw [if_pos h0]
    · have hsrc : src = [] := List.length_eq_zero.mp h0
      subst hsrc
      rfl
  · refine ⟨0 :: lz4CompressDefault src, ?_, ?_⟩
    · unfold lz4Compress
      rw [if_neg h0, if_neg (by omega)]
    · show lz4Decompress (lz4CompressDefault src) = some src
      unfold lz4Decompress lz4CompressDefault
      exact lz4Go_decode src src.length 0 0 (fun _ => -1) _ (by omega) (by omega)
        (fun hsh => Or.inl rfl) (by omega)

theorem lz4_roundtrip_witness :
    ([65, 66, 67, 65, 66, 67, 65, 66, 67, 65, 66, 67, 65, 66, 67, 65, 66, 67] :
      List Nat).length ≤ 0x7E000000 ∧
    ∃ out, lz4Compress
        [65, 66, 67, 65, 66, 67, 65, 66, 67, 65, 66, 67, 65, 66, 67, 65, 66, 67]
        = .ok out ∧
      lz4Decompress (out.drop 1) =
        some [65, 66, 67, 65, 66, 67, 65, 66, 67, 65, 66, 67, 65, 66, 67, 65, 66, 67] :=
  ⟨by decide,
    lz4_roundtrip
      [65, 66, 67, 65, 66, 67, 65, 66, 67, 65, 66, 67, 65, 66, 67, 65, 66, 67]
      (by decide)⟩

end Molrender
